import Mathlib

/-!
Age-based file deletion (`deletion/deleter.go`).

A shallow embedding of the `deletion` package: the deleter walks a directory
tree with `filepath.Walk`, asks `fileOlderThan` about every entry that is not a
directory and hands the old ones to the injected `remover`, counting the
outcomes in `Results`.

Modelling choices.

* The two package-level collaborators `nowClock` and `remover` are interface
  values that may hold arbitrary state.  They are given by an `Env`: the clock
  by the reading of its `n`-th call, the remover by its answer as a function of
  the paths of the earlier calls and of the path at hand.  How often each of
  them has been called is part of the `World`.
* `time.Time` values are instants on the wall-clock line, in nanoseconds, as
  unbounded integers; `time.Duration` is an `int64` count of nanoseconds, so
  `Time.Sub` saturates and the multiplication in `fileOlderThan` wraps.
* The three counters of `Results` are Go `int`s that start at zero in `New` and
  grow by one per visited file.  Within a run they are counted as unbounded
  integers (`Results.Pass`, `Results.Fail`, `Results.skip`), as wrapping them
  would take `2^63` visited files.  The methods on an arbitrary value of the
  struct, with the wrapping increment of a Go `int`, are `Results.PassInt`,
  `Results.FailInt` and `Results.skipInt`; the two agree as long as the counter
  is below the largest `int`.
* `filepath.Walk` belongs to the Go standard library.  It is transcribed from
  `path/filepath/path.go` (as of Go 1.20, which knows `SkipAll` next to
  `SkipDir`) over a tree that records what `os.Lstat` and the directory listing
  answer for every path the walk asks about; the answers do not depend on what
  the remover has done.
* Go `int` is taken to be 64 bits wide.
-/

namespace deletion

/-! ## Errors -/

/-- Go `error` values as far as the package tells them apart: the two sentinels
of `path/filepath`, errors made by `errors.New` or handed in by a collaborator,
and errors wrapped by `github.com/pkg/errors.Wrapf`. -/
inductive GoError where
  | SkipDir
  | SkipAll
  | other (msg : String)
  | wrapped (cause : GoError) (msg : String)
  deriving DecidableEq, Repr

/-- The method `Error()` of an error value. -/
def GoError.Error : GoError → String
  | .SkipDir => "skip this directory"
  | .SkipAll => "skip everything and stop the walk"
  | .other msg => msg
  | .wrapped cause msg => msg ++ ": " ++ cause.Error

/-- The function `Cause` of `github.com/pkg/errors`: the innermost error. -/
def GoError.Cause : GoError → GoError
  | .wrapped cause _ => cause.Cause
  | e => e

/-- An error returned to `filepath.Walk` that is one of its two sentinels, which
the walk compares by identity. -/
def GoError.isSkip : GoError → Bool
  | .SkipDir => true
  | .SkipAll => true
  | _ => false

/-! ## Time

An instant of `time.Time` is an integer: nanoseconds on the wall-clock line.  A
`time.Duration` is an integer too: a count of nanoseconds held in an `int64`. -/

/-- The constant `maxDuration` of package `time`, `1<<63 - 1`. -/
def maxDuration : Int := 9223372036854775807

/-- The constant `minDuration` of package `time`, `-1 << 63`. -/
def minDuration : Int := -9223372036854775808

/-- The constant `time.Hour` in nanoseconds. -/
def Hour : Int := 3600000000000

/-- Two's complement wrap-around of an integer into the `int64` range. -/
def wrapInt64 (x : Int) : Int :=
  (x + 9223372036854775808) % 18446744073709551616 - 9223372036854775808

/-- The method `Time.Sub`: the difference `t - u`, and the largest or smallest
duration when the difference does not fit. -/
def Sub (t u : Int) : Int :=
  let d := t - u
  if d > maxDuration then maxDuration
  else if d < minDuration then minDuration
  else d

/-! ## Data model -/

/-- The struct `Args`: the CLI parameters. -/
structure Args where
  Directory : String
  MaxAgeInHours : Int
  deriving DecidableEq, Repr

/-- The struct `Results`: the three counters. -/
structure Results where
  passed : Int
  failed : Int
  skipped : Int
  deriving DecidableEq, Repr

/-- The struct `deleter`: the embedded `Args` and the `Results` that its pointer
field refers to. -/
structure deleter where
  Args : Args
  Results : Results
  deriving DecidableEq, Repr

/-- The injected collaborators: the `n`-th reading of `nowClock.Now()`, the
answer of `remover.Remove(path)` after the earlier calls `hist`, and the
rendering of a string by the verb `%q` of package `fmt`. -/
structure Env where
  clock : Nat → Int
  remover : List String → String → Option GoError
  quote : String → String

/-- What the run has done to its collaborators so far: the number of clock
readings, the paths handed to the remover in order, and the lines sent to the
logger. -/
structure World where
  clockReads : Nat
  removeCalls : List String
  log : List String
  deriving DecidableEq, Repr

/-- The mutable state a run works on: the deleter and the world around it. -/
structure State where
  d : deleter
  w : World
  deriving DecidableEq, Repr

/-- The part of `os.FileInfo` the package reads. -/
structure FileInfo where
  IsDir : Bool
  ModTime : Int
  deriving DecidableEq, Repr

/-- The arguments `info` and `err` that `filepath.Walk` hands to its callback:
either a valid `info` and a nil error, or a non-nil error together with an
`info` that is nil when `os.Lstat` failed.  The walk never passes a nil `info`
with a nil error. -/
inductive Visit where
  | ok (info : FileInfo)
  | failed (info : Option FileInfo) (err : GoError)
  deriving DecidableEq, Repr

/-! ## The package -/

/-- The function `New`: the deleter or nil, and the error or nil. -/
def New (args : Args) : Option deleter × Option GoError :=
  if args.Directory = "" then
    (none, some (.other "directory must not be empty"))
  else if args.MaxAgeInHours < 0 then
    (none, some (.other "file age must zero or positive"))
  else
    (some ⟨args, ⟨0, 0, 0⟩⟩, none)

/-- The method `Results.Fail`. -/
def Results.Fail (s : State) (path : String) (err : GoError) : State :=
  { d := { s.d with Results := { s.d.Results with failed := s.d.Results.failed + 1 } },
    w := { s.w with
      log := s.w.log ++ ["failed: " ++ path ++ " with error \x27" ++ err.Error ++ "\x27"] } }

/-- The method `Results.Pass`. -/
def Results.Pass (s : State) (path : String) : State :=
  { d := { s.d with Results := { s.d.Results with passed := s.d.Results.passed + 1 } },
    w := { s.w with log := s.w.log ++ ["passed: " ++ path] } }

/-- The method `Results.skip`. -/
def Results.skip (s : State) (path : String) : State :=
  { d := { s.d with Results := { s.d.Results with skipped := s.d.Results.skipped + 1 } },
    w := { s.w with log := s.w.log ++ ["skipped: " ++ path] } }

/-- The method `Results.PrintStats`, which has an empty body. -/
def Results.PrintStats (s : State) : State := s

/-- The constant `math.MaxInt` of a Go `int` of 64 bits. -/
def MaxInt : Int := 9223372036854775807

/-- The constant `math.MinInt` of a Go `int` of 64 bits. -/
def MinInt : Int := -9223372036854775808

/-- The statement `x++` on a Go `int`: the successor, wrapped into the range of
the type, so that the largest `int` is followed by the smallest. -/
def increment (x : Int) : Int := wrapInt64 (x + 1)

/-- Whether the three counters hold values of a Go `int`. -/
def Results.isInt (r : Results) : Bool :=
  decide (MinInt ≤ r.passed ∧ r.passed ≤ MaxInt) && decide (MinInt ≤ r.failed ∧ r.failed ≤ MaxInt)
    && decide (MinInt ≤ r.skipped ∧ r.skipped ≤ MaxInt)

/-- The method `Results.Fail` on an arbitrary value of the struct: it logs the
failure and executes `r.failed++` on a Go `int`. -/
def Results.FailInt (s : State) (path : String) (err : GoError) : State :=
  { d := { s.d with Results := { s.d.Results with failed := increment s.d.Results.failed } },
    w := { s.w with
      log := s.w.log ++ ["failed: " ++ path ++ " with error \x27" ++ err.Error ++ "\x27"] } }

/-- The method `Results.Pass` on an arbitrary value of the struct: it logs the
removal and executes `r.passed++` on a Go `int`. -/
def Results.PassInt (s : State) (path : String) : State :=
  { d := { s.d with Results := { s.d.Results with passed := increment s.d.Results.passed } },
    w := { s.w with log := s.w.log ++ ["passed: " ++ path] } }

/-- The method `Results.skip` on an arbitrary value of the struct: it logs the
path and executes `r.skipped++` on a Go `int`. -/
def Results.skipInt (s : State) (path : String) : State :=
  { d := { s.d with Results := { s.d.Results with skipped := increment s.d.Results.skipped } },
    w := { s.w with log := s.w.log ++ ["skipped: " ++ path] } }

/-- A state whose counter passed holds the largest `int`. -/
def stateAtMaxInt : State := ⟨⟨⟨"/tmp", 5⟩, ⟨9223372036854775807, 0, 0⟩⟩, ⟨0, [], []⟩⟩

/-- The function `fileOlderThan`: it reads the clock once. -/
def fileOlderThan (env : Env) (maxAgeHours : Int) (fileTime : Int) (s : State) :
    Bool × State :=
  let ageCutOff : Int := wrapInt64 (maxAgeHours * Hour)
  let now := env.clock s.w.clockReads
  let s1 : State := { s with w := { s.w with clockReads := s.w.clockReads + 1 } }
  if Sub now fileTime ≤ ageCutOff then (false, s1) else (true, s1)

/-- The method `deleter.deleteFile`: it calls the remover once, counts the
outcome and returns the remover's error. -/
def deleteFile (env : Env) (path : String) (s : State) : Option GoError × State :=
  let err := env.remover s.w.removeCalls path
  let s1 : State := { s with w := { s.w with removeCalls := s.w.removeCalls ++ [path] } }
  match err with
  | some e => (err, Results.Fail s1 path e)
  | none => (err, Results.Pass s1 path)

/-- The call `errors2.Wrapf(err, "error while visiting path %q", path)` for a
non-nil `err`. -/
def Wrapf (env : Env) (err : GoError) (path : String) : GoError :=
  .wrapped err ("error while visiting path " ++ env.quote path)

/-- The method `deleter.filterOldFiles`, the callback of the walk. -/
def filterOldFiles (env : Env) (path : String) (v : Visit) (s : State) :
    Option GoError × State :=
  match v with
  | .failed _ err => (some (Wrapf env err path), s)
  | .ok info =>
    if info.IsDir then (none, s)
    else
      let r := fileOlderThan env s.d.Args.MaxAgeInHours info.ModTime s
      if r.1 then deleteFile env path r.2
      else (none, Results.skip r.2 path)

/-! ## The walk of `path/filepath` -/

mutual
/-- What `os.Lstat` answers for a path: an error, something that is not a
directory, or a directory with the answer of its listing. -/
inductive Node where
  | noent (err : GoError)
  | file (modTime : Int)
  | dir (modTime : Int) (readErr : Option GoError) (entries : Entries)
/-- The names a directory listing returns, in its (sorted) order, each with
what `os.Lstat` answers for it. -/
inductive Entries where
  | nil
  | cons (name : String) (node : Node) (rest : Entries)
end

/-- Whether the `info` of a node says `IsDir()`. -/
def Node.IsDir : Node → Bool
  | .dir _ _ _ => true
  | _ => false

/-- The function `filepath.Join` on a clean directory path and an entry name. -/
def Join (path name : String) : String := path ++ "/" ++ name

/-- The type `filepath.WalkFunc` over a state `σ`. -/
abbrev WalkFunc (σ : Type) := String → Visit → σ → Option GoError × σ

mutual
/-- The function `walk` of `path/filepath`.  The standard library calls it only
with the `info` of a successful `os.Lstat`; on a node whose `Lstat` fails it
does here what `Walk` does for such a root. -/
def walk {σ : Type} (walkFn : WalkFunc σ) (path : String) : Node → σ → Option GoError × σ
  | .noent err, s => walkFn path (.failed none err) s
  | .file modTime, s => walkFn path (.ok ⟨false, modTime⟩) s
  | .dir modTime readErr entries, s =>
    match readErr with
    | some err => walkFn path (.failed (some ⟨true, modTime⟩) err) s
    | none =>
      match walkFn path (.ok ⟨true, modTime⟩) s with
      | (some err1, s1) => (some err1, s1)
      | (none, s1) => walkEntries walkFn path entries s1
/-- The loop of `walk` over the names of a directory. -/
def walkEntries {σ : Type} (walkFn : WalkFunc σ) (path : String) :
    Entries → σ → Option GoError × σ
  | .nil, s => (none, s)
  | .cons name node rest, s =>
    match node with
    | .noent err =>
      match walkFn (Join path name) (.failed none err) s with
      | (some e, s1) =>
        if e ≠ .SkipDir then (some e, s1)
        else walkEntries walkFn path rest s1
      | (none, s1) => walkEntries walkFn path rest s1
    | node =>
      match walk walkFn (Join path name) node s with
      | (some e, s1) =>
        if !node.IsDir || e ≠ .SkipDir then (some e, s1)
        else walkEntries walkFn path rest s1
      | (none, s1) => walkEntries walkFn path rest s1
end

/-- The function `filepath.Walk`. -/
def Walk {σ : Type} (walkFn : WalkFunc σ) (root : String) (tree : Node) (s : σ) :
    Option GoError × σ :=
  match walk walkFn root tree s with
  | (some e, s1) => if e = .SkipDir ∨ e = .SkipAll then (none, s1) else (some e, s1)
  | (none, s1) => (none, s1)

/-- The method `deleter.Execute`: the results, the error of the walk, and the
state the run leaves behind. -/
def Execute (env : Env) (tree : Node) (s : State) : (Results × Option GoError) × State :=
  match Walk (filterOldFiles env) s.d.Args.Directory tree s with
  | (some err, s1) => ((s1.d.Results, some err), s1)
  | (none, s1) => ((s1.d.Results, none), s1)

/-! ## The sequence of walked entries

The walk does not keep the entries it hands to its callback.  To speak about
them the callback is wrapped so that it notes each call; the wrapped callback
answers and changes the state exactly as the callback itself. -/

/-- A callback that also appends each of its calls to a list. -/
def record {σ : Type} (walkFn : WalkFunc σ) : WalkFunc (σ × List (String × Visit)) :=
  fun path v st => ((walkFn path v st.1).1, ((walkFn path v st.1).2, st.2 ++ [(path, v)]))

/-- The state after the callback has been called on each entry of a list in
turn, whatever it answered. -/
def replay {σ : Type} (walkFn : WalkFunc σ) : List (String × Visit) → σ → σ
  | [], s => s
  | (p, v) :: rest, s => replay walkFn rest (walkFn p v s).2

/-- An answer of the callback after which a walk may go on: nil or one of the
two sentinels. -/
def quiet : Option GoError → Bool
  | none => true
  | some e => e.isSkip

/-- The relation between a list of calls, the state before, the error a walk
returns and the state after: the state is threaded through the calls in order,
every call but the last answered nil or a sentinel, and the error returned is
the answer of the last call, or nil when that answer is a sentinel. -/
def Run {σ : Type} (walkFn : WalkFunc σ) :
    List (String × Visit) → σ → Option GoError → σ → Prop
  | [], s, err, s' => err = none ∧ s' = s
  | [(p, v)], s, err, s' =>
    s' = (walkFn p v s).2 ∧
      (err = (walkFn p v s).1 ∨ (err = none ∧ quiet (walkFn p v s).1 = true))
  | (p, v) :: x :: rest, s, err, s' =>
    quiet (walkFn p v s).1 = true ∧ Run walkFn (x :: rest) (walkFn p v s).2 err s'

mutual
/-- Every call a walk of a node can make, in the order of the walk, when no
call makes it stop or skip. -/
def preorder (path : String) : Node → List (String × Visit)
  | .noent err => [(path, .failed none err)]
  | .file modTime => [(path, .ok ⟨false, modTime⟩)]
  | .dir modTime (some err) _ => [(path, .failed (some ⟨true, modTime⟩) err)]
  | .dir modTime none entries => (path, .ok ⟨true, modTime⟩) :: preorderEntries path entries
/-- Every call a walk of the entries of a directory can make. -/
def preorderEntries (path : String) : Entries → List (String × Visit)
  | .nil => []
  | .cons name node rest => preorder (Join path name) node ++ preorderEntries path rest
end

/-- Whether the loop over a directory returns at once after the walk of one of
its entries answered `r`: on any error for an entry that is not a directory,
and on any error but `SkipDir` for a directory and for an entry whose `Lstat`
failed. -/
def stops (node : Node) (r : Option GoError) : Bool :=
  match r with
  | none => false
  | some e =>
    match node with
    | .noent _ => decide (e ≠ .SkipDir)
    | n => !n.IsDir || decide (e ≠ .SkipDir)

/-- The entries that `Execute` hands to `filterOldFiles`, in order. -/
def walked (env : Env) (tree : Node) (s : State) : List (String × Visit) :=
  (Walk (record (filterOldFiles env)) s.d.Args.Directory tree (s, [])).2.2

mutual
/-- A tree on which the walk reports no error of its own: every `Lstat` and
every directory listing succeeds. -/
def noTraversalError : Node → Bool
  | .noent _ => false
  | .file _ => true
  | .dir _ (some _) _ => false
  | .dir _ none entries => noTraversalErrorEntries entries
/-- The same for the entries of a directory. -/
def noTraversalErrorEntries : Entries → Bool
  | .nil => true
  | .cons _ node rest => noTraversalError node && noTraversalErrorEntries rest
end

/-- The state with `δ` added to the three counters. -/
def shift (δ : Results) (s : State) : State :=
  { s with d := { s.d with Results :=
      ⟨s.d.Results.passed + δ.passed, s.d.Results.failed + δ.failed,
        s.d.Results.skipped + δ.skipped⟩ } }

/-! ## Example runs -/

/-- An error as `os.Remove` or `os.Lstat` may return it. -/
def permissionDenied : GoError := .other "permission denied"

/-- The verb `%q` on a path of plain letters: the path between double quotes. -/
def quotePlain (p : String) : String := "\"" ++ p ++ "\""

/-- A clock that stands at hour 100 and a remover that fails on every call. -/
def envFailing : Env := ⟨fun _ => 100 * Hour, fun _ _ => some permissionDenied, quotePlain⟩

/-- A clock that stands at hour 100 and a simulated remover that succeeds on
every call. -/
def envSucceeding : Env := ⟨fun _ => 100 * Hour, fun _ _ => none, quotePlain⟩

/-- A world in which neither collaborator has been called yet. -/
def freshWorld : World := ⟨0, [], []⟩

/-- The deleter `New` returns for the directory `/tmp` and a given age, in a
fresh world. -/
def freshState (maxAgeInHours : Int) : State := ⟨⟨⟨"/tmp", maxAgeInHours⟩, ⟨0, 0, 0⟩⟩, freshWorld⟩

/-- A directory with the one file `a`, last modified at hour 90. -/
def treeOneOld : Node := .dir 0 none (.cons "a" (.file (90 * Hour)) .nil)

/-- A directory with the files `a` and `b`, last modified at hours 90 and 80. -/
def treeTwoOld : Node :=
  .dir 0 none (.cons "a" (.file (90 * Hour)) (.cons "b" (.file (80 * Hour)) .nil))

/-- A directory with the files `a` and `b`, last modified at hours 90 and 99. -/
def treeOldYoung : Node :=
  .dir 0 none (.cons "a" (.file (90 * Hour)) (.cons "b" (.file (99 * Hour)) .nil))

/-- A directory with the file `a` of hour 99, the name `b` whose `Lstat` fails,
and the file `c` of hour 90. -/
def treeBroken : Node :=
  .dir 0 none (.cons "a" (.file (99 * Hour))
    (.cons "b" (.noent permissionDenied) (.cons "c" (.file (90 * Hour)) .nil)))

/-- A clock that stands at hour 100 and a remover that fails on its first call
and succeeds on every later one. -/
def envFailingOnce : Env :=
  ⟨fun _ => 100 * Hour, fun hist _ => if hist = [] then some permissionDenied else none,
    quotePlain⟩

/-- A directory with the one file `a`, last modified exactly `h` hours before
hour 100. -/
def treeBoundary (h : Int) : Node := .dir 0 none (.cons "a" (.file (100 * Hour - h * Hour)) .nil)

/-! ## Counting walked entries -/

/-- Whether a walked entry was handed over without error and is not a
directory. -/
def isFile (x : String × Visit) : Bool :=
  match x.2 with
  | .ok info => !info.IsDir
  | .failed _ _ => false

/-- Whether a walked entry is a file whose exact age at the clock reading `now`
is greater than `h` hours. -/
def isOldFile (now h : Int) (x : String × Visit) : Bool :=
  match x.2 with
  | .ok info => !info.IsDir && decide (now - info.ModTime > h * Hour)
  | .failed _ _ => false

/-- The paths that `filterOldFiles`, called on the entries of a list in turn
from the state `s`, hands to the remover: the files `fileOlderThan` selects at
the state they are met in. -/
def selected (env : Env) : List (String × Visit) → State → List String
  | [], _ => []
  | (p, v) :: rest, s =>
    (match v with
      | .ok info =>
        if !info.IsDir && (fileOlderThan env s.d.Args.MaxAgeInHours info.ModTime s).1 then [p]
        else []
      | .failed _ _ => []) ++ selected env rest (filterOldFiles env p v s).2

/-- A clock that starts at hour 100 and advances by one nanosecond with every
reading, and a simulated remover that succeeds on every call. -/
def envTicking : Env := ⟨fun n => 100 * Hour + n, fun _ _ => none, quotePlain⟩

/-- A directory with the files `a` and `b`, both last modified at hour 95. -/
def treeTwins : Node :=
  .dir 0 none (.cons "a" (.file (95 * Hour)) (.cons "b" (.file (95 * Hour)) .nil))

/-! ## Facts about the walk -/

theorem Run_single {σ : Type} (fn : WalkFunc σ) (p : String) (v : Visit) (s : σ) :
    Run fn [(p, v)] s (fn p v s).1 (fn p v s).2 := by
  simp [Run]

theorem Run_cons {σ : Type} (fn : WalkFunc σ) (p : String) (v : Visit) (s : σ)
    (tr : List (String × Visit)) (err : Option GoError) (s' : σ)
    (hq : quiet (fn p v s).1 = true) (h : Run fn tr (fn p v s).2 err s') :
    Run fn ((p, v) :: tr) s err s' := by
  cases tr with
  | nil =>
    obtain ⟨h1, h2⟩ := h
    exact ⟨h2, Or.inr ⟨h1, hq⟩⟩
  | cons x rest => exact ⟨hq, h⟩

theorem Run_quiet_none {σ : Type} (fn : WalkFunc σ) :
    ∀ (tr : List (String × Visit)) (s : σ) (err : Option GoError) (s' : σ),
      Run fn tr s err s' → quiet err = true → Run fn tr s none s'
  | [], _, _, _, h, _ => ⟨rfl, h.2⟩
  | [(p, v)], s, err, s', h, hq => by
    obtain ⟨h1, h2⟩ := h
    refine ⟨h1, Or.inr ⟨rfl, ?_⟩⟩
    rcases h2 with h2 | h2
    · rw [← h2]; exact hq
    · exact h2.2
  | (p, v) :: x :: rest, s, err, s', h, hq =>
    ⟨h.1, Run_quiet_none fn (x :: rest) _ err s' h.2 hq⟩

theorem Run_append {σ : Type} (fn : WalkFunc σ) (tr2 : List (String × Visit))
    (err : Option GoError) (s' : σ) :
    ∀ (tr1 : List (String × Visit)) (s : σ) (e1 : Option GoError) (s1 : σ),
      Run fn tr1 s e1 s1 → quiet e1 = true → Run fn tr2 s1 err s' →
      Run fn (tr1 ++ tr2) s err s'
  | [], s, e1, s1, h, _, h2 => by
    obtain ⟨_, hs⟩ := h
    subst hs
    simpa using h2
  | [(p, v)], s, e1, s1, h, hq, h2 => by
    obtain ⟨hs, he⟩ := h
    subst hs
    have hq' : quiet (fn p v s).1 = true := by
      rcases he with he | he
      · rw [← he]; exact hq
      · exact he.2
    exact Run_cons fn p v s tr2 err s' hq' h2
  | (p, v) :: x :: rest, s, e1, s1, h, hq, h2 => by
    have ih := Run_append fn tr2 err s' (x :: rest) _ e1 s1 h.2 hq h2
    exact ⟨h.1, ih⟩

theorem replay_append {σ : Type} (fn : WalkFunc σ) :
    ∀ (tr1 tr2 : List (String × Visit)) (s : σ),
      replay fn (tr1 ++ tr2) s = replay fn tr2 (replay fn tr1 s)
  | [], _, _ => rfl
  | (p, v) :: rest, tr2, s => by
    simpa [replay] using replay_append fn rest tr2 (fn p v s).2

theorem Run_replay {σ : Type} (fn : WalkFunc σ) :
    ∀ (tr : List (String × Visit)) (s : σ) (err : Option GoError) (s' : σ),
      Run fn tr s err s' → s' = replay fn tr s
  | [], _, _, _, h => h.2
  | [(p, v)], s, err, s', h => by simpa [replay] using h.1
  | (p, v) :: x :: rest, s, err, s', h => by
    have ih := Run_replay fn (x :: rest) _ err s' h.2
    simpa [replay] using ih

/-- A call that answers an error other than a sentinel is the last call of the
walk, and its answer is the error the walk returns. -/
theorem Run_stop {σ : Type} (fn : WalkFunc σ) (p : String) (v : Visit)
    (post : List (String × Visit)) (err : Option GoError) (s' : σ) :
    ∀ (pre : List (String × Visit)) (s : σ),
      Run fn (pre ++ (p, v) :: post) s err s' →
      quiet (fn p v (replay fn pre s)).1 = false →
      post = [] ∧ err = (fn p v (replay fn pre s)).1
  | [], s, h, hq => by
    cases post with
    | nil =>
      obtain ⟨_, he⟩ := h
      refine ⟨rfl, ?_⟩
      rcases he with he | he
      · exact he
      · simp [replay] at hq; rw [hq] at he; simp at he
    | cons x rest =>
      have h1 : quiet (fn p v s).1 = true := h.1
      simp [replay] at hq
      rw [hq] at h1; simp at h1
  | [q], s, h, hq => by
    obtain ⟨q1, q2⟩ := q
    have h2 : Run fn ([] ++ (p, v) :: post) (fn q1 q2 s).2 err s' := h.2
    exact Run_stop fn p v post err s' [] _ h2 (by simpa [replay] using hq)
  | q :: x :: rest, s, h, hq => by
    obtain ⟨q1, q2⟩ := q
    have h2 : Run fn ((x :: rest) ++ (p, v) :: post) (fn q1 q2 s).2 err s' := h.2
    exact Run_stop fn p v post err s' (x :: rest) _ h2 (by simpa [replay] using hq)

/-- An error returned by the walk is the answer of its last call. -/
theorem Run_error_last {σ : Type} (fn : WalkFunc σ) (e : GoError) (s' : σ) :
    ∀ (tr : List (String × Visit)) (s : σ), Run fn tr s (some e) s' →
      ∃ pre p v, tr = pre ++ [(p, v)] ∧ (fn p v (replay fn pre s)).1 = some e
  | [], _, h => by simp [Run] at h
  | [(p, v)], s, h => by
    obtain ⟨_, he⟩ := h
    rcases he with he | he
    · exact ⟨[], p, v, rfl, by simpa [replay] using he.symm⟩
    · simp at he
  | (p, v) :: x :: rest, s, h => by
    obtain ⟨pre, p', v', h1, h2⟩ := Run_error_last fn e s' (x :: rest) _ h.2
    exact ⟨(p, v) :: pre, p', v', by simp [h1], by simpa [replay] using h2⟩

theorem walkEntries_cons {σ : Type} (fn : WalkFunc σ) (path name : String) (node : Node)
    (rest : Entries) (s : σ) :
    walkEntries fn path (.cons name node rest) s =
      if stops node (walk fn (Join path name) node s).1 then walk fn (Join path name) node s
      else walkEntries fn path rest (walk fn (Join path name) node s).2 := by
  cases node with
  | noent err =>
    rcases h : fn (Join path name) (.failed none err) s with ⟨_ | e, s1⟩
    · simp [walkEntries, walk, stops, h]
    · by_cases hc : e = .SkipDir
      · simp [walkEntries, walk, stops, h, hc]
      · simp [walkEntries, walk, stops, h, hc]
  | file modTime =>
    rcases h : fn (Join path name) (.ok ⟨false, modTime⟩) s with ⟨_ | e, s1⟩
    · simp [walkEntries, walk, stops, h]
    · simp [walkEntries, walk, stops, h, Node.IsDir]
  | dir modTime readErr entries =>
    rcases h : walk fn (Join path name) (.dir modTime readErr entries) s with ⟨_ | e, s1⟩
    · simp [walkEntries, stops, h]
    · by_cases hc : e = .SkipDir
      · simp [walkEntries, stops, h, hc, Node.IsDir]
      · simp [walkEntries, stops, h, hc, Node.IsDir]

theorem quiet_of_not_stops (node : Node) (r : Option GoError) (h : stops node r = false) :
    quiet r = true := by
  cases r with
  | none => rfl
  | some e =>
    cases node <;> cases e <;> simp [stops, quiet, GoError.isSkip, Node.IsDir] at h ⊢

mutual
/-- The walk of a node with the noting callback answers and leaves the state as
the walk with the callback itself, and the calls it notes are calls of the
pre-order of the node, in order, related to the outcome by `Run`. -/
theorem walk_record {σ : Type} (fn : WalkFunc σ) (path : String) :
    ∀ (node : Node) (s : σ) (l : List (String × Visit)),
      ∃ tr, walk (record fn) path node (s, l)
          = ((walk fn path node s).1, ((walk fn path node s).2, l ++ tr))
        ∧ tr.Sublist (preorder path node)
        ∧ Run fn tr s (walk fn path node s).1 (walk fn path node s).2
  | .noent err, s, l =>
    ⟨[(path, .failed none err)], by simp [walk, record], by simp [preorder],
      by simpa [walk] using Run_single fn path _ s⟩
  | .file modTime, s, l =>
    ⟨[(path, .ok ⟨false, modTime⟩)], by simp [walk, record], by simp [preorder],
      by simpa [walk] using Run_single fn path _ s⟩
  | .dir modTime (some err) entries, s, l =>
    ⟨[(path, .failed (some ⟨true, modTime⟩) err)], by simp [walk, record], by simp [preorder],
      by simpa [walk] using Run_single fn path _ s⟩
  | .dir modTime none entries, s, l => by
    rcases h : fn path (.ok ⟨true, modTime⟩) s with ⟨_ | e1, s1⟩
    · obtain ⟨tr, h1, h2, h3⟩ :=
        walkEntries_record fn path entries s1 (l ++ [(path, .ok ⟨true, modTime⟩)])
      refine ⟨(path, .ok ⟨true, modTime⟩) :: tr, ?_, ?_, ?_⟩
      · simp [walk, record, h, h1]
      · simpa [preorder] using h2
      · simp only [walk, h]
        exact Run_cons fn path _ s tr _ _ (by simp [h, quiet]) (by simpa [h] using h3)
    · refine ⟨[(path, .ok ⟨true, modTime⟩)], ?_, ?_, ?_⟩
      · simp [walk, record, h]
      · simp [preorder]
      · have := Run_single fn path (.ok ⟨true, modTime⟩) s
        simpa [walk, h] using this
/-- The same for the loop over the entries of a directory. -/
theorem walkEntries_record {σ : Type} (fn : WalkFunc σ) (path : String) :
    ∀ (entries : Entries) (s : σ) (l : List (String × Visit)),
      ∃ tr, walkEntries (record fn) path entries (s, l)
          = ((walkEntries fn path entries s).1, ((walkEntries fn path entries s).2, l ++ tr))
        ∧ tr.Sublist (preorderEntries path entries)
        ∧ Run fn tr s (walkEntries fn path entries s).1 (walkEntries fn path entries s).2
  | .nil, s, l => ⟨[], by simp [walkEntries], by simp [preorderEntries], by simp [walkEntries, Run]⟩
  | .cons name node rest, s, l => by
    obtain ⟨tr1, h1, h2, h3⟩ := walk_record fn (Join path name) node s l
    rw [walkEntries_cons, walkEntries_cons, h1]
    by_cases hst : stops node (walk fn (Join path name) node s).1 = true
    · refine ⟨tr1, by simp [hst], ?_, by simpa [hst] using h3⟩
      simp only [preorderEntries]
      exact h2.trans (List.sublist_append_left _ _)
    · simp only [Bool.not_eq_true] at hst
      obtain ⟨tr2, g1, g2, g3⟩ :=
        walkEntries_record fn path rest (walk fn (Join path name) node s).2 (l ++ tr1)
      refine ⟨tr1 ++ tr2, by simp [hst, g1], ?_, ?_⟩
      · simp only [preorderEntries]
        exact h2.append g2
      · simp only [hst, Bool.false_eq_true, if_false]
        exact Run_append fn tr2 _ _ tr1 s _ _ h3 (quiet_of_not_stops node _ hst) g3
end

theorem Walk_eq {σ : Type} (fn : WalkFunc σ) (root : String) (tree : Node) (s : σ) :
    Walk fn root tree s =
      (if quiet (walk fn root tree s).1 then none else (walk fn root tree s).1,
        (walk fn root tree s).2) := by
  unfold Walk
  rcases h : walk fn root tree s with ⟨_ | e, s1⟩
  · simp [quiet]
  · cases e <;> simp [quiet, GoError.isSkip]

/-- The error `filepath.Walk` returns is never one of its sentinels. -/
theorem Walk_not_skip {σ : Type} (fn : WalkFunc σ) (root : String) (tree : Node) (s : σ)
    (e : GoError) (h : (Walk fn root tree s).1 = some e) : e.isSkip = false := by
  rw [Walk_eq] at h
  by_cases hq : quiet (walk fn root tree s).1 = true
  · simp [hq] at h
  · simp only [hq, Bool.false_eq_true, if_false] at h
    rw [h] at hq
    simpa [quiet] using hq

/-- The calls noted during `filepath.Walk` are calls of the pre-order of the
tree, in order, and `Run` relates them to what the walk returns. -/
theorem Walk_record {σ : Type} (fn : WalkFunc σ) (root : String) (tree : Node) (s : σ) :
    ∃ tr, Walk (record fn) root tree (s, []) = ((Walk fn root tree s).1, ((Walk fn root tree s).2, tr))
      ∧ tr.Sublist (preorder root tree)
      ∧ Run fn tr s (Walk fn root tree s).1 (Walk fn root tree s).2 := by
  obtain ⟨tr, h1, h2, h3⟩ := walk_record fn root tree s []
  refine ⟨tr, ?_, h2, ?_⟩
  · rw [Walk_eq, Walk_eq, h1]
    simp
  · rw [Walk_eq]
    by_cases hq : quiet (walk fn root tree s).1 = true
    · simpa [hq] using Run_quiet_none fn tr s _ _ h3 hq
    · simpa [hq] using h3

theorem Execute_eq (env : Env) (tree : Node) (s : State) :
    Execute env tree s =
      (((Walk (filterOldFiles env) s.d.Args.Directory tree s).2.d.Results,
        (Walk (filterOldFiles env) s.d.Args.Directory tree s).1),
        (Walk (filterOldFiles env) s.d.Args.Directory tree s).2) := by
  unfold Execute
  rcases h : Walk (filterOldFiles env) s.d.Args.Directory tree s with ⟨_ | e, s1⟩ <;> rfl

/-- The entries `Execute` hands to `filterOldFiles` are entries of the tree in
the order of the walk, and `Run` relates them to what `Execute` returns. -/
theorem Execute_walked (env : Env) (tree : Node) (s : State) :
    (walked env tree s).Sublist (preorder s.d.Args.Directory tree)
      ∧ Run (filterOldFiles env) (walked env tree s) s (Execute env tree s).1.2
          (Execute env tree s).2
      ∧ (Execute env tree s).1.1 = (Execute env tree s).2.d.Results := by
  obtain ⟨tr, h1, h2, h3⟩ := Walk_record (filterOldFiles env) s.d.Args.Directory tree s
  have hw : walked env tree s = tr := by simp [walked, h1]
  rw [hw, Execute_eq]
  exact ⟨h2, h3, rfl⟩

mutual
/-- Two callbacks that answer alike on related states and keep the states
related are walked alike. -/
theorem walk_sim {σ τ : Type} (fn : WalkFunc σ) (gn : WalkFunc τ) (R : σ → τ → Prop)
    (hR : ∀ p v s t, R s t → (fn p v s).1 = (gn p v t).1 ∧ R (fn p v s).2 (gn p v t).2)
    (path : String) :
    ∀ (node : Node) (s : σ) (t : τ), R s t →
      (walk fn path node s).1 = (walk gn path node t).1
        ∧ R (walk fn path node s).2 (walk gn path node t).2
  | .noent err, s, t, h => by simpa [walk] using hR path _ s t h
  | .file modTime, s, t, h => by simpa [walk] using hR path _ s t h
  | .dir modTime (some err) entries, s, t, h => by simpa [walk] using hR path _ s t h
  | .dir modTime none entries, s, t, h => by
    obtain ⟨h1, h2⟩ := hR path (.ok ⟨true, modTime⟩) s t h
    rcases hf : fn path (.ok ⟨true, modTime⟩) s with ⟨_ | e1, s1⟩
    · rcases hg : gn path (.ok ⟨true, modTime⟩) t with ⟨_ | e2, t1⟩
      · rw [hf, hg] at h2
        simpa [walk, hf, hg] using walkEntries_sim fn gn R hR path entries s1 t1 h2
      · rw [hf, hg] at h1; simp at h1
    · rcases hg : gn path (.ok ⟨true, modTime⟩) t with ⟨_ | e2, t1⟩
      · rw [hf, hg] at h1; simp at h1
      · rw [hf, hg] at h1 h2
        simpa [walk, hf, hg] using And.intro h1 h2
/-- The same for the loop over the entries of a directory. -/
theorem walkEntries_sim {σ τ : Type} (fn : WalkFunc σ) (gn : WalkFunc τ) (R : σ → τ → Prop)
    (hR : ∀ p v s t, R s t → (fn p v s).1 = (gn p v t).1 ∧ R (fn p v s).2 (gn p v t).2)
    (path : String) :
    ∀ (entries : Entries) (s : σ) (t : τ), R s t →
      (walkEntries fn path entries s).1 = (walkEntries gn path entries t).1
        ∧ R (walkEntries fn path entries s).2 (walkEntries gn path entries t).2
  | .nil, s, t, h => by simpa [walkEntries] using h
  | .cons name node rest, s, t, h => by
    obtain ⟨h1, h2⟩ := walk_sim fn gn R hR (Join path name) node s t h
    rw [walkEntries_cons, walkEntries_cons, ← h1]
    by_cases hst : stops node (walk fn (Join path name) node s).1 = true
    · simpa [hst] using And.intro h1 h2
    · simpa [hst] using walkEntries_sim fn gn R hR path rest _ _ h2
end

theorem Walk_sim {σ τ : Type} (fn : WalkFunc σ) (gn : WalkFunc τ) (R : σ → τ → Prop)
    (hR : ∀ p v s t, R s t → (fn p v s).1 = (gn p v t).1 ∧ R (fn p v s).2 (gn p v t).2)
    (root : String) (tree : Node) (s : σ) (t : τ) (h : R s t) :
    (Walk fn root tree s).1 = (Walk gn root tree t).1
      ∧ R (Walk fn root tree s).2 (Walk gn root tree t).2 := by
  obtain ⟨h1, h2⟩ := walk_sim fn gn R hR root tree s t h
  rw [Walk_eq, Walk_eq, ← h1]
  exact ⟨rfl, h2⟩

/-! ## The age predicate -/

theorem fileOlderThan_fst (env : Env) (h : Int) (t : Int) (s : State) :
    (fileOlderThan env h t s).1 = !decide (Sub (env.clock s.w.clockReads) t ≤ wrapInt64 (h * Hour)) := by
  unfold fileOlderThan
  by_cases hc : Sub (env.clock s.w.clockReads) t ≤ wrapInt64 (h * Hour) <;> simp [hc]

theorem fileOlderThan_snd (env : Env) (h : Int) (t : Int) (s : State) :
    (fileOlderThan env h t s).2 = { s with w := { s.w with clockReads := s.w.clockReads + 1 } } := by
  unfold fileOlderThan
  by_cases hc : Sub (env.clock s.w.clockReads) t ≤ wrapInt64 (h * Hour) <;> simp [hc]

/-- While `maxAgeHours * time.Hour` fits an `int64`, the comparison of the code
is the comparison of the exact values. -/
theorem cutoff_exact (h now t : Int) (h0 : 0 ≤ h) (h1 : h ≤ 2562047) :
    Sub now t ≤ wrapInt64 (h * Hour) ↔ now - t ≤ h * Hour := by
  simp only [Sub, wrapInt64, Hour, maxDuration, minDuration]
  split_ifs <;> omega

/-- An exact age above the exact threshold is above the computed one, for every
non-negative `int64` number of hours. -/
theorem cutoff_of_older (h now t : Int) (h0 : 0 ≤ h)
    (h1 : h ≤ 9223372036854775807) (hold : now - t > h * Hour) :
    ¬ Sub now t ≤ wrapInt64 (h * Hour) := by
  simp only [Sub, wrapInt64, Hour, maxDuration, minDuration] at *
  split_ifs <;> omega

/-! ## The callback -/

theorem filterOldFiles_failed (env : Env) (path : String) (info : Option FileInfo)
    (err : GoError) (s : State) :
    filterOldFiles env path (.failed info err) s = (some (Wrapf env err path), s) := rfl

theorem filterOldFiles_file (env : Env) (path : String) (modTime : Int) (s : State) :
    filterOldFiles env path (.ok ⟨false, modTime⟩) s =
      if (fileOlderThan env s.d.Args.MaxAgeInHours modTime s).1 = true then
        deleteFile env path { s with w := { s.w with clockReads := s.w.clockReads + 1 } }
      else
        (none, Results.skip { s with w := { s.w with clockReads := s.w.clockReads + 1 } } path) := by
  simp [filterOldFiles, fileOlderThan_snd]

theorem deleteFile_fst (env : Env) (path : String) (s : State) :
    (deleteFile env path s).1 = env.remover s.w.removeCalls path := by
  unfold deleteFile
  cases env.remover s.w.removeCalls path <;> rfl

theorem deleteFile_removeCalls (env : Env) (path : String) (s : State) :
    (deleteFile env path s).2.w.removeCalls = s.w.removeCalls ++ [path] := by
  unfold deleteFile
  cases env.remover s.w.removeCalls path <;> rfl

/-- The callback answers an error in two ways only: the wrapped error of the
walk, or the error of the remover on a file that `fileOlderThan` selected. -/
theorem filterOldFiles_error_iff (env : Env) (path : String) (v : Visit) (s : State)
    (e : GoError) :
    (filterOldFiles env path v s).1 = some e ↔
      (∃ info err, v = .failed info err ∧ e = Wrapf env err path) ∨
      (∃ modTime, v = .ok ⟨false, modTime⟩
        ∧ (fileOlderThan env s.d.Args.MaxAgeInHours modTime s).1 = true
        ∧ env.remover s.w.removeCalls path = some e) := by
  cases v with
  | failed info err =>
    simp only [filterOldFiles_failed]
    constructor
    · intro h
      exact Or.inl ⟨info, err, rfl, by simpa using h.symm⟩
    · rintro (⟨_, _, h1, h2⟩ | ⟨_, h1, _⟩)
      · cases h1; simp [h2]
      · cases h1
  | ok info =>
    obtain ⟨isDir, modTime⟩ := info
    cases isDir with
    | true => simp [filterOldFiles]
    | false =>
      rw [filterOldFiles_file]
      by_cases ho : (fileOlderThan env s.d.Args.MaxAgeInHours modTime s).1 = true
      · simp [ho, deleteFile_fst]
      · simp [ho]

theorem filterOldFiles_Args (env : Env) (path : String) (v : Visit) (s : State) :
    (filterOldFiles env path v s).2.d.Args = s.d.Args := by
  cases v with
  | failed info err => rfl
  | ok info =>
    obtain ⟨isDir, modTime⟩ := info
    cases isDir with
    | true => rfl
    | false =>
      rw [filterOldFiles_file]
      split
      · unfold deleteFile
        cases env.remover _ path <;> rfl
      · rfl

theorem replay_Args (env : Env) :
    ∀ (tr : List (String × Visit)) (s : State),
      (replay (filterOldFiles env) tr s).d.Args = s.d.Args
  | [], _ => rfl
  | (p, v) :: rest, s => by
    simp only [replay]
    rw [replay_Args env rest, filterOldFiles_Args]

/-- The callback does not look at the counters: on a state with shifted
counters it answers the same and leaves the same state, shifted. -/
theorem filterOldFiles_shift (env : Env) (δ : Results) (path : String) (v : Visit)
    (s : State) :
    filterOldFiles env path v (shift δ s) =
      ((filterOldFiles env path v s).1, shift δ (filterOldFiles env path v s).2) := by
  cases v with
  | failed info err => rfl
  | ok info =>
    obtain ⟨isDir, modTime⟩ := info
    cases isDir with
    | true => rfl
    | false =>
      rw [filterOldFiles_file, filterOldFiles_file]
      have hf : (fileOlderThan env (shift δ s).d.Args.MaxAgeInHours modTime (shift δ s)).1
          = (fileOlderThan env s.d.Args.MaxAgeInHours modTime s).1 := by
        simp [fileOlderThan_fst, shift]
      rw [hf]
      by_cases ho : (fileOlderThan env s.d.Args.MaxAgeInHours modTime s).1 = true
      · simp only [ho, if_true]
        unfold deleteFile
        cases hr : env.remover s.w.removeCalls path with
        | none => simp [shift, hr, Results.Pass]; ring
        | some e => simp [shift, hr, Results.Fail]; ring
      · simp only [ho, Bool.false_eq_true, if_false]
        simp [shift, Results.skip]; ring

mutual
theorem preorder_ok (path : String) :
    ∀ (node : Node), noTraversalError node = true →
      ∀ x ∈ preorder path node, ∃ info, x.2 = Visit.ok info
  | .noent err, h => by simp [noTraversalError] at h
  | .file modTime, _ => by simp [preorder]
  | .dir modTime (some err) entries, h => by simp [noTraversalError] at h
  | .dir modTime none entries, h => by
    intro x hx
    simp only [preorder, List.mem_cons] at hx
    rcases hx with hx | hx
    · exact ⟨_, by rw [hx]⟩
    · exact preorderEntries_ok path entries (by simpa [noTraversalError] using h) x hx
theorem preorderEntries_ok (path : String) :
    ∀ (entries : Entries), noTraversalErrorEntries entries = true →
      ∀ x ∈ preorderEntries path entries, ∃ info, x.2 = Visit.ok info
  | .nil, _ => by simp [preorderEntries]
  | .cons name node rest, h => by
    intro x hx
    simp only [noTraversalErrorEntries, Bool.and_eq_true] at h
    simp only [preorderEntries, List.mem_append] at hx
    rcases hx with hx | hx
    · exact preorder_ok (Join path name) node h.1 x hx
    · exact preorderEntries_ok path rest h.2 x hx
end

/-! ## Removal failures -/

/-- C1, counterexample: the deleter that `New` returns for `/tmp` and five
hours, run on a directory holding one file that is ten hours old with a remover
that always fails, counts the failure (failed = 1, passed = 0) and returns the
remover's error, not nil, although the walk reports no error of its own. -/
theorem Execute_failing_remover_returns_error :
    New ⟨"/tmp", 5⟩ = (some (freshState 5).d, none)
      ∧ noTraversalError treeOneOld = true
      ∧ (Execute envFailing treeOneOld (freshState 5)).1 = (⟨0, 1, 0⟩, some permissionDenied)
      ∧ (Execute envFailing treeOneOld (freshState 5)).1.2 ≠ none := by
  refine ⟨by decide, by decide, by decide, by decide⟩

theorem Execute_one_file (env : Env) (name : String) (dirTime modTime : Int) (s : State) :
    Execute env (.dir dirTime none (.cons name (.file modTime) .nil)) s =
      (((filterOldFiles env (Join s.d.Args.Directory name) (.ok ⟨false, modTime⟩) s).2.d.Results,
        if quiet (filterOldFiles env (Join s.d.Args.Directory name) (.ok ⟨false, modTime⟩) s).1
        then none
        else (filterOldFiles env (Join s.d.Args.Directory name) (.ok ⟨false, modTime⟩) s).1),
        (filterOldFiles env (Join s.d.Args.Directory name) (.ok ⟨false, modTime⟩) s).2) := by
  have hd : filterOldFiles env s.d.Args.Directory (.ok ⟨true, dirTime⟩) s = (none, s) := rfl
  have hw : walk (filterOldFiles env) s.d.Args.Directory
      (.dir dirTime none (.cons name (.file modTime) .nil)) s
      = filterOldFiles env (Join s.d.Args.Directory name) (.ok ⟨false, modTime⟩) s := by
    simp only [walk, hd, walkEntries_cons]
    rcases h : filterOldFiles env (Join s.d.Args.Directory name) (.ok ⟨false, modTime⟩) s
      with ⟨_ | e, s1⟩
    · simp [stops, walkEntries]
    · simp [stops, Node.IsDir]
  rw [Execute_eq, Walk_eq, hw]

/-- C1, amended: on a tree whose walk reports no error of its own, and for every
remover, `Execute` returns an error exactly when the removal of the file walked
last failed with an error that is not one of the two sentinels of the walk, and
it returns that error.  In particular, for a directory with one file that
`fileOlderThan` selects and a remover that always fails with such an error,
`Execute` on a deleter fresh from `New` returns failed = 1, passed = 0 and the
remover's error. -/
theorem Execute_error_iff_removal_failed (env : Env) (tree : Node) (s : State)
    (hno : noTraversalError tree = true) :
    (∀ e, (Execute env tree s).1.2 = some e ↔
        (e.isSkip = false ∧ ∃ pre p modTime,
          walked env tree s = pre ++ [(p, Visit.ok ⟨false, modTime⟩)]
          ∧ (fileOlderThan env (replay (filterOldFiles env) pre s).d.Args.MaxAgeInHours modTime
              (replay (filterOldFiles env) pre s)).1 = true
          ∧ env.remover (replay (filterOldFiles env) pre s).w.removeCalls p = some e))
    ∧ (∀ (name : String) (dirTime modTime : Int) (e : GoError) (args : Args) (d : deleter)
        (w : World),
        New args = (some d, none) →
        (fileOlderThan env args.MaxAgeInHours modTime ⟨d, w⟩).1 = true →
        (∀ hist p, env.remover hist p = some e) → e.isSkip = false →
        (Execute env (.dir dirTime none (.cons name (.file modTime) .nil)) ⟨d, w⟩).1
          = (⟨0, 1, 0⟩, some e)) := by
  obtain ⟨hsub, hrun, _⟩ := Execute_walked env tree s
  constructor
  · intro e
    constructor
    · intro he
      rw [he] at hrun
      have hskip : e.isSkip = false := by
        rw [Execute_eq] at he
        exact Walk_not_skip _ _ _ _ e he
      obtain ⟨pre, p, v, htr, hans⟩ := Run_error_last _ e _ _ s hrun
      refine ⟨hskip, pre, p, ?_⟩
      rcases (filterOldFiles_error_iff env p v _ e).1 hans with
        ⟨info, err, hv, _⟩ | ⟨modTime, hv, hold, hrem⟩
      · have hmem : (p, v) ∈ preorder s.d.Args.Directory tree :=
          hsub.subset (by rw [htr]; simp)
        obtain ⟨info', hi⟩ := preorder_ok _ tree hno _ hmem
        rw [hv] at hi
        cases hi
      · exact ⟨modTime, by rw [htr, hv], hold, hrem⟩
    · rintro ⟨hskip, pre, p, modTime, htr, hold, hrem⟩
      have hans : (filterOldFiles env p (.ok ⟨false, modTime⟩)
          (replay (filterOldFiles env) pre s)).1 = some e :=
        (filterOldFiles_error_iff env p _ _ e).2 (Or.inr ⟨modTime, rfl, hold, hrem⟩)
      rw [htr] at hrun
      have := Run_stop (filterOldFiles env) p _ [] _ _ pre s hrun (by simp [hans, quiet, hskip])
      rw [this.2, hans]
  · intro name dirTime modTime e args d w hnew hold hrem hskip
    have hd : d = ⟨args, ⟨0, 0, 0⟩⟩ := by
      unfold New at hnew
      split_ifs at hnew <;> simp_all
    subst hd
    rw [Execute_one_file, filterOldFiles_file]
    simp only [hold, if_true]
    simp [deleteFile, hrem, quiet, hskip, Results.Fail]

/-- C1, witness: the amended statement at the directory with one old file and
the remover that always fails. -/
theorem Execute_error_iff_removal_failed_witness :
    noTraversalError treeOneOld = true
      ∧ (Execute envFailing treeOneOld (freshState 5)).1 = (⟨0, 1, 0⟩, some permissionDenied) :=
  ⟨by decide,
    (Execute_error_iff_removal_failed envFailing treeOneOld (freshState 5) (by decide)).2
      "a" 0 (90 * Hour) permissionDenied ⟨"/tmp", 5⟩ (freshState 5).d freshWorld
      (by decide) (by decide) (fun _ _ => rfl) (by decide)⟩

/-- C2, counterexample: in a directory with the old files `a` and `b` the remover
fails on `a` only.  With a remover that succeeds both files are walked and
removed; after the failure on `a` the walk ends with the remover's error, `b`
is not among the walked entries, the remover is not called on it and it is
counted nowhere. -/
theorem failed_removal_skips_later_files :
    walked envSucceeding treeTwoOld (freshState 5)
        = [("/tmp", .ok ⟨true, 0⟩), ("/tmp/a", .ok ⟨false, 90 * Hour⟩),
            ("/tmp/b", .ok ⟨false, 80 * Hour⟩)]
      ∧ (Execute envSucceeding treeTwoOld (freshState 5)).1 = (⟨2, 0, 0⟩, none)
      ∧ walked envFailingOnce treeTwoOld (freshState 5)
        = [("/tmp", .ok ⟨true, 0⟩), ("/tmp/a", .ok ⟨false, 90 * Hour⟩)]
      ∧ (Execute envFailingOnce treeTwoOld (freshState 5)).1
        = (⟨0, 1, 0⟩, some permissionDenied)
      ∧ (Execute envFailingOnce treeTwoOld (freshState 5)).2.w.removeCalls = ["/tmp/a"] := by
  refine ⟨by decide, by decide, by decide, by decide, by decide⟩

/-- C2, amended: a failed removal ends the run unless its error is one of the
two sentinels of the walk.  When the remover fails with any other error on a
walked file that `fileOlderThan` selected, that file is the last walked entry,
`Execute` returns the remover's error, and the state it leaves is the one that
call of `filterOldFiles` left: the counts accumulated before it with failed
increased by one. -/
theorem failed_removal_ends_walk (env : Env) (tree : Node) (s : State)
    (pre post : List (String × Visit)) (p : String) (modTime : Int) (e : GoError)
    (hw : walked env tree s = pre ++ (p, Visit.ok ⟨false, modTime⟩) :: post)
    (hold : (fileOlderThan env (replay (filterOldFiles env) pre s).d.Args.MaxAgeInHours modTime
      (replay (filterOldFiles env) pre s)).1 = true)
    (hfail : env.remover (replay (filterOldFiles env) pre s).w.removeCalls p = some e)
    (hns : e.isSkip = false) :
    post = []
      ∧ (Execute env tree s).1.2 = some e
      ∧ (Execute env tree s).2
          = (filterOldFiles env p (.ok ⟨false, modTime⟩) (replay (filterOldFiles env) pre s)).2
      ∧ (Execute env tree s).1.1.failed = (replay (filterOldFiles env) pre s).d.Results.failed + 1
      ∧ (Execute env tree s).1.1.passed = (replay (filterOldFiles env) pre s).d.Results.passed
      ∧ (Execute env tree s).1.1.skipped = (replay (filterOldFiles env) pre s).d.Results.skipped
      ∧ (Execute env tree s).2.w.removeCalls
          = (replay (filterOldFiles env) pre s).w.removeCalls ++ [p] := by
  obtain ⟨_, hrun, hres⟩ := Execute_walked env tree s
  have hans : (filterOldFiles env p (.ok ⟨false, modTime⟩)
      (replay (filterOldFiles env) pre s)).1 = some e :=
    (filterOldFiles_error_iff env p _ _ e).2 (Or.inr ⟨modTime, rfl, hold, hfail⟩)
  rw [hw] at hrun
  obtain ⟨hpost, herr⟩ :=
    Run_stop (filterOldFiles env) p _ post _ _ pre s hrun (by simp [hans, quiet, hns])
  subst hpost
  have hst := Run_replay _ _ _ _ _ hrun
  have hst' : (Execute env tree s).2
      = (filterOldFiles env p (.ok ⟨false, modTime⟩) (replay (filterOldFiles env) pre s)).2 := by
    rw [hst, replay_append]
    rfl
  have hfin : (filterOldFiles env p (.ok ⟨false, modTime⟩) (replay (filterOldFiles env) pre s)).2
      = Results.Fail
          { (replay (filterOldFiles env) pre s) with
            w := { (replay (filterOldFiles env) pre s).w with
              clockReads := (replay (filterOldFiles env) pre s).w.clockReads + 1,
              removeCalls := (replay (filterOldFiles env) pre s).w.removeCalls ++ [p] } } p e := by
    rw [filterOldFiles_file]
    simp only [hold, if_true]
    simp [deleteFile, hfail]
  refine ⟨rfl, by rw [herr, hans], hst', ?_, ?_, ?_, ?_⟩
  · rw [hres, hst', hfin]; rfl
  · rw [hres, hst', hfin]; rfl
  · rw [hres, hst', hfin]; rfl
  · rw [hst', hfin]; rfl

/-- C2, witness: the amended statement at the directory with the old files `a`
and `b` and the remover that fails on its first call. -/
theorem failed_removal_ends_walk_witness :
    walked envFailingOnce treeTwoOld (freshState 5)
        = [("/tmp", .ok ⟨true, 0⟩)] ++ ("/tmp/a", Visit.ok ⟨false, 90 * Hour⟩) :: []
      ∧ (Execute envFailingOnce treeTwoOld (freshState 5)).1.2 = some permissionDenied
      ∧ (Execute envFailingOnce treeTwoOld (freshState 5)).1.1.failed = 0 + 1 :=
  have h := failed_removal_ends_walk envFailingOnce treeTwoOld (freshState 5)
    [("/tmp", .ok ⟨true, 0⟩)] [] "/tmp/a" (90 * Hour) permissionDenied
    (by decide) (by decide) (by decide) (by decide)
  ⟨by decide, h.2.1, h.2.2.2.1⟩

/-! ## The age threshold -/

/-- C3, the code at a failing input: with `maxAgeHours = 2562048` the product
`maxAgeHours * time.Hour` wraps to a negative `int64`, and `fileOlderThan`
answers true for a file modified at the very instant of the clock reading,
whose elapsed time of zero is not greater than 2562048 hours. -/
theorem fileOlderThan_wraps_at_2562048 :
    wrapInt64 (2562048 * Hour) = -9223371273709551616
      ∧ (fileOlderThan envSucceeding 2562048 (100 * Hour) (freshState 2562048)).1 = true
      ∧ ¬ (envSucceeding.clock 0 - 100 * Hour > 2562048 * Hour) := by
  refine ⟨by decide, by decide, by decide⟩

/-- Below the wrap-around, for `0 ≤ maxAgeHours ≤ 2562047`, `fileOlderThan`
answers true exactly when the exact elapsed time is greater than the exact
number of hours. -/
theorem fileOlderThan_exact (env : Env) (maxAgeHours fileTime : Int) (s : State)
    (h0 : 0 ≤ maxAgeHours) (h1 : maxAgeHours ≤ 2562047) :
    (fileOlderThan env maxAgeHours fileTime s).1 = true
      ↔ env.clock s.w.clockReads - fileTime > maxAgeHours * Hour := by
  rw [fileOlderThan_fst]
  have := cutoff_exact maxAgeHours (env.clock s.w.clockReads) fileTime h0 h1
  simp only [Bool.not_eq_true', decide_eq_false_iff_not, this]
  omega

/-- C4, the code at a failing input: the deleter `New` returns for 2562048
hours, run on a directory whose one file was modified exactly 2562048 hours
before the clock reading, hands the file to the remover and counts it as
passed, not as skipped. -/
theorem Execute_boundary_removed_at_2562048 :
    New ⟨"/tmp", 2562048⟩ = (some (freshState 2562048).d, none)
      ∧ treeBoundary 2562048 = .dir 0 none (.cons "a" (.file (100 * Hour - 2562048 * Hour)) .nil)
      ∧ envSucceeding.clock 0 - (100 * Hour - 2562048 * Hour) = 2562048 * Hour
      ∧ (Execute envSucceeding (treeBoundary 2562048) (freshState 2562048)).2.w.removeCalls
          = ["/tmp/a"]
      ∧ (Execute envSucceeding (treeBoundary 2562048) (freshState 2562048)).1
          = (⟨1, 0, 0⟩, none) := by
  refine ⟨by decide, rfl, by decide, by decide, by decide⟩

/-- Below the wrap-around the boundary is exclusive: a file that is not a
directory and was modified exactly `MaxAgeInHours` hours before the clock
reading is not handed to the remover and is counted as skipped. -/
theorem filterOldFiles_boundary (env : Env) (path : String) (modTime : Int) (s : State)
    (h0 : 0 ≤ s.d.Args.MaxAgeInHours) (h1 : s.d.Args.MaxAgeInHours ≤ 2562047)
    (hage : env.clock s.w.clockReads - modTime = s.d.Args.MaxAgeInHours * Hour) :
    (filterOldFiles env path (.ok ⟨false, modTime⟩) s).1 = none
      ∧ (filterOldFiles env path (.ok ⟨false, modTime⟩) s).2.w.removeCalls = s.w.removeCalls
      ∧ (filterOldFiles env path (.ok ⟨false, modTime⟩) s).2.d.Results
          = { s.d.Results with skipped := s.d.Results.skipped + 1 } := by
  have hf : ¬ (fileOlderThan env s.d.Args.MaxAgeInHours modTime s).1 = true := by
    rw [fileOlderThan_exact env _ _ s h0 h1]
    omega
  rw [filterOldFiles_file]
  simp only [hf, if_false]
  exact ⟨rfl, rfl, rfl⟩

/-- C5: for a walked entry without traversal error that is not a directory and
whose exact age `now - modTime` is greater than `MaxAgeInHours` hours, for a
non-negative `MaxAgeInHours` of an `int64`, `filterOldFiles` calls the remover
exactly once, with the path of that file, and returns the remover's answer; when
the removal succeeds passed grows by exactly one and failed and skipped stay as
they are. -/
theorem filterOldFiles_removes_old_file (env : Env) (path : String) (modTime : Int)
    (s : State) (h0 : 0 ≤ s.d.Args.MaxAgeInHours)
    (h1 : s.d.Args.MaxAgeInHours ≤ 9223372036854775807)
    (hold : env.clock s.w.clockReads - modTime > s.d.Args.MaxAgeInHours * Hour) :
    (filterOldFiles env path (.ok ⟨false, modTime⟩) s).2.w.removeCalls
        = s.w.removeCalls ++ [path]
      ∧ (filterOldFiles env path (.ok ⟨false, modTime⟩) s).1 = env.remover s.w.removeCalls path
      ∧ (env.remover s.w.removeCalls path = none →
          (filterOldFiles env path (.ok ⟨false, modTime⟩) s).2.d.Results.passed
              = s.d.Results.passed + 1
            ∧ (filterOldFiles env path (.ok ⟨false, modTime⟩) s).2.d.Results.failed
              = s.d.Results.failed
            ∧ (filterOldFiles env path (.ok ⟨false, modTime⟩) s).2.d.Results.skipped
              = s.d.Results.skipped) := by
  have hf : (fileOlderThan env s.d.Args.MaxAgeInHours modTime s).1 = true := by
    rw [fileOlderThan_fst]
    simpa using cutoff_of_older _ _ _ h0 h1 hold
  rw [filterOldFiles_file]
  simp only [hf, if_true]
  refine ⟨deleteFile_removeCalls _ _ _, deleteFile_fst _ _ _, ?_⟩
  intro hr
  simp [deleteFile, hr, Results.Pass]

/-- C5, witness: the file `/tmp/a`, ten hours old, under a threshold of five
hours and a remover that succeeds. -/
theorem filterOldFiles_removes_old_file_witness :
    envSucceeding.clock (freshState 5).w.clockReads - 90 * Hour
        > (freshState 5).d.Args.MaxAgeInHours * Hour
      ∧ (filterOldFiles envSucceeding "/tmp/a" (.ok ⟨false, 90 * Hour⟩) (freshState 5)).2.w.removeCalls
        = [] ++ ["/tmp/a"]
      ∧ (filterOldFiles envSucceeding "/tmp/a" (.ok ⟨false, 90 * Hour⟩)
          (freshState 5)).2.d.Results.passed = 0 + 1 :=
  have h := filterOldFiles_removes_old_file envSucceeding "/tmp/a" (90 * Hour) (freshState 5)
    (by decide) (by decide) (by decide)
  ⟨by decide, h.1, (h.2.2 rfl).1⟩

/-- C6, the code at a failing input: under a threshold of 2562048 hours a file
that is one hour old, younger than the threshold, is handed to the remover and
counted as passed; skipped stays zero. -/
theorem filterOldFiles_removes_young_file_at_2562048 :
    envSucceeding.clock (freshState 2562048).w.clockReads - 99 * Hour
        < (freshState 2562048).d.Args.MaxAgeInHours * Hour
      ∧ (filterOldFiles envSucceeding "/tmp/a" (.ok ⟨false, 99 * Hour⟩)
          (freshState 2562048)).2.w.removeCalls = ["/tmp/a"]
      ∧ (filterOldFiles envSucceeding "/tmp/a" (.ok ⟨false, 99 * Hour⟩)
          (freshState 2562048)).2.d.Results = ⟨1, 0, 0⟩ := by
  refine ⟨by decide, by decide, by decide⟩

/-- Below the wrap-around a file that is not a directory and is younger than
`MaxAgeInHours` hours is not handed to the remover: skipped grows by one,
passed and failed stay, and the callback returns nil. -/
theorem filterOldFiles_young (env : Env) (path : String) (modTime : Int) (s : State)
    (h0 : 0 ≤ s.d.Args.MaxAgeInHours) (h1 : s.d.Args.MaxAgeInHours ≤ 2562047)
    (hage : env.clock s.w.clockReads - modTime < s.d.Args.MaxAgeInHours * Hour) :
    (filterOldFiles env path (.ok ⟨false, modTime⟩) s).1 = none
      ∧ (filterOldFiles env path (.ok ⟨false, modTime⟩) s).2.w.removeCalls = s.w.removeCalls
      ∧ (filterOldFiles env path (.ok ⟨false, modTime⟩) s).2.d.Results
          = { s.d.Results with skipped := s.d.Results.skipped + 1 } := by
  have hf : ¬ (fileOlderThan env s.d.Args.MaxAgeInHours modTime s).1 = true := by
    rw [fileOlderThan_exact env _ _ s h0 h1]
    omega
  rw [filterOldFiles_file]
  simp only [hf, if_false]
  exact ⟨rfl, rfl, rfl⟩

/-! ## Construction -/

/-- C7: `New` returns an error and no deleter exactly when the directory is the
empty string or the age is negative, and a deleter and a nil error exactly
otherwise. -/
theorem New_error_iff (args : Args) :
    (((New args).2 ≠ none ∧ (New args).1 = none)
        ↔ (args.Directory = "" ∨ args.MaxAgeInHours < 0))
      ∧ (((New args).1 ≠ none ∧ (New args).2 = none)
        ↔ ¬ (args.Directory = "" ∨ args.MaxAgeInHours < 0)) := by
  unfold New
  by_cases hd : args.Directory = ""
  · simp [hd]
  · by_cases ha : args.MaxAgeInHours < 0
    · simp [hd, ha]
    · simp [hd, ha]

/-! ## Directories and traversal errors -/

/-- C8: on a walked directory without traversal error `filterOldFiles` returns
nil and leaves the whole state as it is: the three counters, the number of
clock readings, the calls of the remover and the log, whatever the modification
time of the directory. -/
theorem filterOldFiles_dir (env : Env) (path : String) (modTime : Int) (s : State) :
    filterOldFiles env path (.ok ⟨true, modTime⟩) s = (none, s) := rfl

/-- C9: when the walk reports the error `err` for the path `p`, `filterOldFiles`
returns the error that wraps `err` with a message naming `p` and leaves the
state as it is; that entry is the last one walked, `Execute` returns that error
together with the results, and the state and the counts are those accumulated
by `filterOldFiles` over the entries walked before it. -/
theorem Execute_traversal_error (env : Env) (tree : Node) (s : State)
    (pre post : List (String × Visit)) (p : String) (info : Option FileInfo) (err : GoError)
    (hw : walked env tree s = pre ++ (p, Visit.failed info err) :: post) :
    filterOldFiles env p (.failed info err) (replay (filterOldFiles env) pre s)
        = (some (GoError.wrapped err ("error while visiting path " ++ env.quote p)),
            replay (filterOldFiles env) pre s)
      ∧ (GoError.wrapped err ("error while visiting path " ++ env.quote p)).Error
        = "error while visiting path " ++ env.quote p ++ ": " ++ err.Error
      ∧ (GoError.wrapped err ("error while visiting path " ++ env.quote p)).Cause = err.Cause
      ∧ post = []
      ∧ (Execute env tree s).1.2
        = some (GoError.wrapped err ("error while visiting path " ++ env.quote p))
      ∧ (Execute env tree s).2 = replay (filterOldFiles env) pre s
      ∧ (Execute env tree s).1.1 = (replay (filterOldFiles env) pre s).d.Results := by
  obtain ⟨_, hrun, hres⟩ := Execute_walked env tree s
  rw [hw] at hrun
  obtain ⟨hpost, herr⟩ := Run_stop (filterOldFiles env) p _ post _ _ pre s hrun
    (by simp [filterOldFiles_failed, quiet, Wrapf, GoError.isSkip])
  subst hpost
  have hst : (Execute env tree s).2 = replay (filterOldFiles env) pre s := by
    rw [Run_replay _ _ _ _ _ hrun, replay_append]
    rfl
  refine ⟨rfl, rfl, rfl, rfl, by rw [herr]; rfl, hst, by rw [hres, hst]⟩

/-- C9, witness: in `/tmp` the young file `a` is skipped, `Lstat` fails on `b`,
and the old file `c` is never reached. -/
theorem Execute_traversal_error_witness :
    walked envSucceeding treeBroken (freshState 5)
        = [("/tmp", .ok ⟨true, 0⟩), ("/tmp/a", .ok ⟨false, 99 * Hour⟩)]
            ++ ("/tmp/b", Visit.failed none permissionDenied) :: []
      ∧ (Execute envSucceeding treeBroken (freshState 5)).1.2
        = some (GoError.wrapped permissionDenied ("error while visiting path " ++ "\"/tmp/b\""))
      ∧ (Execute envSucceeding treeBroken (freshState 5)).1.1 = ⟨0, 0, 1⟩ :=
  have h := Execute_traversal_error envSucceeding treeBroken (freshState 5)
    [("/tmp", .ok ⟨true, 0⟩), ("/tmp/a", .ok ⟨false, 99 * Hour⟩)] [] "/tmp/b" none
    permissionDenied (by decide)
  ⟨by decide, h.2.2.2.2.1, by decide⟩

/-! ## Repeated runs -/

theorem Execute_Args (env : Env) (tree : Node) (s : State) :
    (Execute env tree s).2.d.Args = s.d.Args := by
  obtain ⟨_, hrun, _⟩ := Execute_walked env tree s
  rw [Run_replay _ _ _ _ _ hrun, replay_Args]

/-- A run that starts from shifted counters returns the same error and leaves
the same state, shifted. -/
theorem Execute_shift (env : Env) (tree : Node) (δ : Results) (s : State) :
    (Execute env tree (shift δ s)).1.2 = (Execute env tree s).1.2
      ∧ (Execute env tree (shift δ s)).2 = shift δ (Execute env tree s).2 := by
  have h := Walk_sim (filterOldFiles env) (filterOldFiles env) (fun a b => b = shift δ a)
    (fun p v a b hab => by
      subst hab
      rw [filterOldFiles_shift]
      exact ⟨rfl, rfl⟩)
    s.d.Args.Directory tree s (shift δ s) rfl
  rw [Execute_eq, Execute_eq]
  exact ⟨h.1.symm, h.2⟩

/-- C10, counterexample: with a clock that stands still, a simulated remover
that deletes nothing and the same tree, the first `Execute` on a fresh deleter
reports passed = 1, skipped = 1, and the second `Execute` on that deleter
reports passed = 2, skipped = 2, whether the collaborators are taken as they
were before the first run or as the first run left them. -/
theorem Execute_twice_counts_differ :
    (Execute envSucceeding treeOldYoung (freshState 5)).1 = (⟨1, 0, 1⟩, none)
      ∧ (Execute envSucceeding treeOldYoung
          ⟨(Execute envSucceeding treeOldYoung (freshState 5)).2.d, (freshState 5).w⟩).1
        = (⟨2, 0, 2⟩, none)
      ∧ (Execute envSucceeding treeOldYoung
          (Execute envSucceeding treeOldYoung (freshState 5)).2).1
        = (⟨2, 0, 2⟩, none) := by
  refine ⟨by decide, by decide, by decide⟩

/-- C10, amended: `Execute` adds to the counters it finds in the deleter.  With the
same clock readings, the same answers of the remover and the same tree for both
runs, the second `Execute` on a deleter returns the same error as the first,
leaves the collaborators as the first did, and raises passed, failed and
skipped by the amounts the first run raised them; on a fresh deleter the
counts after the second call are twice those after the first. -/
theorem Execute_twice_adds_again (env : Env) (tree : Node) (s : State) :
    (Execute env tree ⟨(Execute env tree s).2.d, s.w⟩).1.2 = (Execute env tree s).1.2
      ∧ (Execute env tree ⟨(Execute env tree s).2.d, s.w⟩).2.w = (Execute env tree s).2.w
      ∧ (Execute env tree ⟨(Execute env tree s).2.d, s.w⟩).1.1.passed
        = (Execute env tree s).1.1.passed
          + ((Execute env tree s).1.1.passed - s.d.Results.passed)
      ∧ (Execute env tree ⟨(Execute env tree s).2.d, s.w⟩).1.1.failed
        = (Execute env tree s).1.1.failed
          + ((Execute env tree s).1.1.failed - s.d.Results.failed)
      ∧ (Execute env tree ⟨(Execute env tree s).2.d, s.w⟩).1.1.skipped
        = (Execute env tree s).1.1.skipped
          + ((Execute env tree s).1.1.skipped - s.d.Results.skipped) := by
  have hargs := Execute_Args env tree s
  have hres : ∀ t, (Execute env tree t).1.1 = (Execute env tree t).2.d.Results :=
    fun t => (Execute_walked env tree t).2.2
  have hs : (⟨(Execute env tree s).2.d, s.w⟩ : State)
      = shift ⟨(Execute env tree s).2.d.Results.passed - s.d.Results.passed,
          (Execute env tree s).2.d.Results.failed - s.d.Results.failed,
          (Execute env tree s).2.d.Results.skipped - s.d.Results.skipped⟩ s := by
    rcases hE : (Execute env tree s).2 with ⟨⟨a, r⟩, w⟩
    rw [hE] at hargs
    simp only at hargs
    subst hargs
    simp [shift]
  obtain ⟨h1, h2⟩ := Execute_shift env tree
    ⟨(Execute env tree s).2.d.Results.passed - s.d.Results.passed,
      (Execute env tree s).2.d.Results.failed - s.d.Results.failed,
      (Execute env tree s).2.d.Results.skipped - s.d.Results.skipped⟩ s
  rw [hs]
  refine ⟨h1, by rw [h2]; rfl, ?_, ?_, ?_⟩
  all_goals
    rw [hres, hres, h2]
    simp only [shift]

/-! ## Construction, counters and the clock -/

/-- C12: for every `Args` with a non-empty directory and a non-negative age,
`New` returns a nil error and a deleter that carries exactly the given
`Directory` and `MaxAgeInHours` and results whose three counters are zero.
`New` is a function of its `Args` alone: it has neither the collaborators nor
the world at hand, so it reads no clock, walks nothing and removes nothing. -/
theorem New_fresh (args : Args) (hdir : args.Directory ≠ "") (hage : 0 ≤ args.MaxAgeInHours) :
    ∃ d, New args = (some d, none)
      ∧ d.Args.Directory = args.Directory
      ∧ d.Args.MaxAgeInHours = args.MaxAgeInHours
      ∧ d.Results.passed = 0 ∧ d.Results.failed = 0 ∧ d.Results.skipped = 0 := by
  refine ⟨⟨args, ⟨0, 0, 0⟩⟩, ?_, rfl, rfl, rfl, rfl, rfl⟩
  unfold New
  simp [hdir, not_lt.mpr hage]

/-- C12, witness: the arguments `/tmp` and five hours. -/
theorem New_fresh_witness :
    (⟨"/tmp", 5⟩ : Args).Directory ≠ "" ∧ 0 ≤ (⟨"/tmp", 5⟩ : Args).MaxAgeInHours
      ∧ ∃ d, New ⟨"/tmp", 5⟩ = (some d, none)
        ∧ d.Args.Directory = "/tmp" ∧ d.Args.MaxAgeInHours = 5
        ∧ d.Results.passed = 0 ∧ d.Results.failed = 0 ∧ d.Results.skipped = 0 :=
  ⟨by decide, by decide, New_fresh ⟨"/tmp", 5⟩ (by decide) (by decide)⟩

/-- The increment of a Go `int` is the successor below the largest `int` and the
smallest `int` at the largest. -/
theorem increment_eq (x : Int) (hmin : MinInt ≤ x) (hmax : x ≤ MaxInt) :
    (x < MaxInt → increment x = x + 1) ∧ (x = MaxInt → increment x = MinInt) := by
  simp only [increment, wrapInt64, MaxInt, MinInt] at *
  constructor <;> intro h <;> omega

/-- The counting of a run is the method of the struct as long as the counter is
an `int` below the largest one. -/
theorem Results.Pass_eq_PassInt (s : State) (path : String)
    (hmin : MinInt ≤ s.d.Results.passed) (hmax : s.d.Results.passed < MaxInt) :
    Results.Pass s path = Results.PassInt s path := by
  simp only [Results.Pass, Results.PassInt, (increment_eq _ hmin (le_of_lt hmax)).1 hmax]

theorem Results.Fail_eq_FailInt (s : State) (path : String) (err : GoError)
    (hmin : MinInt ≤ s.d.Results.failed) (hmax : s.d.Results.failed < MaxInt) :
    Results.Fail s path err = Results.FailInt s path err := by
  simp only [Results.Fail, Results.FailInt, (increment_eq _ hmin (le_of_lt hmax)).1 hmax]

theorem Results.skip_eq_skipInt (s : State) (path : String)
    (hmin : MinInt ≤ s.d.Results.skipped) (hmax : s.d.Results.skipped < MaxInt) :
    Results.skip s path = Results.skipInt s path := by
  simp only [Results.skip, Results.skipInt, (increment_eq _ hmin (le_of_lt hmax)).1 hmax]

/-- C13, counterexample: on the value of the struct whose counter passed holds the
largest `int`, 9223372036854775807, the method `Pass` leaves passed at the
smallest `int`, -9223372036854775808: passed is not increased by one. -/
theorem Pass_wraps_at_MaxInt :
    stateAtMaxInt.d.Results.isInt = true
      ∧ stateAtMaxInt.d.Results.passed = 9223372036854775807
      ∧ (Results.PassInt stateAtMaxInt "/tmp/a").d.Results.passed = -9223372036854775808
      ∧ (Results.PassInt stateAtMaxInt "/tmp/a").d.Results.passed
        ≠ stateAtMaxInt.d.Results.passed + 1 := by
  refine ⟨by decide, by decide, by decide, by decide⟩

/-- C13, amended: the three counters are independent.  On every value of the
struct, three Go `int`s, `Pass` changes passed and leaves failed and skipped,
`Fail` changes failed and leaves passed and skipped, `skip` changes skipped and
leaves passed and failed, and `PrintStats` changes no counter.  The counter
that is changed grows by exactly one when it is below the largest `int`, and
wraps to the smallest `int` when it holds the largest. -/
theorem counters_change_alone (s : State) (path : String) (err : GoError)
    (hint : s.d.Results.isInt = true) :
    ((Results.PassInt s path).d.Results.failed = s.d.Results.failed
        ∧ (Results.PassInt s path).d.Results.skipped = s.d.Results.skipped
        ∧ (s.d.Results.passed < MaxInt →
            (Results.PassInt s path).d.Results.passed = s.d.Results.passed + 1)
        ∧ (s.d.Results.passed = MaxInt → (Results.PassInt s path).d.Results.passed = MinInt))
      ∧ ((Results.FailInt s path err).d.Results.passed = s.d.Results.passed
        ∧ (Results.FailInt s path err).d.Results.skipped = s.d.Results.skipped
        ∧ (s.d.Results.failed < MaxInt →
            (Results.FailInt s path err).d.Results.failed = s.d.Results.failed + 1)
        ∧ (s.d.Results.failed = MaxInt →
            (Results.FailInt s path err).d.Results.failed = MinInt))
      ∧ ((Results.skipInt s path).d.Results.passed = s.d.Results.passed
        ∧ (Results.skipInt s path).d.Results.failed = s.d.Results.failed
        ∧ (s.d.Results.skipped < MaxInt →
            (Results.skipInt s path).d.Results.skipped = s.d.Results.skipped + 1)
        ∧ (s.d.Results.skipped = MaxInt → (Results.skipInt s path).d.Results.skipped = MinInt))
      ∧ (Results.PrintStats s).d.Results = s.d.Results := by
  simp only [Results.isInt, Bool.and_eq_true, decide_eq_true_eq] at hint
  obtain ⟨⟨hp, hf⟩, hs⟩ := hint
  have ip := increment_eq _ hp.1 hp.2
  have jf := increment_eq _ hf.1 hf.2
  have ks := increment_eq _ hs.1 hs.2
  exact ⟨⟨rfl, rfl, ip.1, ip.2⟩, ⟨rfl, rfl, jf.1, jf.2⟩, ⟨rfl, rfl, ks.1, ks.2⟩, rfl⟩

/-- C13, witness: on the fresh counters each method raises its own counter from
zero to one. -/
theorem counters_change_alone_witness :
    (freshState 5).d.Results.isInt = true
      ∧ (Results.PassInt (freshState 5) "/tmp/a").d.Results.passed = 0 + 1
      ∧ (Results.FailInt (freshState 5) "/tmp/a" permissionDenied).d.Results.failed = 0 + 1
      ∧ (Results.skipInt (freshState 5) "/tmp/a").d.Results.skipped = 0 + 1 :=
  have h := counters_change_alone (freshState 5) "/tmp/a" permissionDenied (by decide)
  ⟨by decide, h.1.2.2.1 (by decide), h.2.1.2.2.1 (by decide), h.2.2.1.2.2.1 (by decide)⟩

/-- C14, counterexample: two files of one directory with the same modification
time, hour 95, under a threshold of five hours and a clock that advances by one
nanosecond per reading.  The first file is decided against the first reading
and skipped, the second against the second reading and handed to the remover:
the clock is read twice and the two files receive different decisions. -/
theorem same_modTime_different_decision :
    walked envTicking treeTwins (freshState 5)
        = [("/tmp", .ok ⟨true, 0⟩), ("/tmp/a", .ok ⟨false, 95 * Hour⟩),
            ("/tmp/b", .ok ⟨false, 95 * Hour⟩)]
      ∧ (Execute envTicking treeTwins (freshState 5)).2.w.removeCalls = ["/tmp/b"]
      ∧ (Execute envTicking treeTwins (freshState 5)).2.w.clockReads = 2
      ∧ (Execute envTicking treeTwins (freshState 5)).1 = (⟨1, 0, 1⟩, none) := by
  refine ⟨by decide, by decide, by decide, by decide⟩

/-- C14, amended: `fileOlderThan` reads the injected clock on every call, once for
every file that is evaluated, and decides the file against that reading.  At
any two points of a run, two files with the same modification time receive the
same decision whenever the clock gives the same reading at both points, as a
clock that stands still does: both are handed to the remover or neither is. -/
theorem same_reading_same_decision (env : Env) (s : State)
    (pre1 pre2 : List (String × Visit)) (p1 p2 : String) (modTime : Int)
    (hclock : env.clock (replay (filterOldFiles env) pre1 s).w.clockReads
      = env.clock (replay (filterOldFiles env) pre2 s).w.clockReads) :
    ((filterOldFiles env p1 (.ok ⟨false, modTime⟩) (replay (filterOldFiles env) pre1 s)).2.w.clockReads
        = (replay (filterOldFiles env) pre1 s).w.clockReads + 1)
      ∧ ((fileOlderThan env (replay (filterOldFiles env) pre1 s).d.Args.MaxAgeInHours modTime
            (replay (filterOldFiles env) pre1 s)).1
          = (fileOlderThan env (replay (filterOldFiles env) pre2 s).d.Args.MaxAgeInHours modTime
            (replay (filterOldFiles env) pre2 s)).1)
      ∧ ((filterOldFiles env p1 (.ok ⟨false, modTime⟩)
            (replay (filterOldFiles env) pre1 s)).2.w.removeCalls
            = (replay (filterOldFiles env) pre1 s).w.removeCalls ++ [p1]
          ↔ (filterOldFiles env p2 (.ok ⟨false, modTime⟩)
            (replay (filterOldFiles env) pre2 s)).2.w.removeCalls
            = (replay (filterOldFiles env) pre2 s).w.removeCalls ++ [p2]) := by
  have hdec : (fileOlderThan env (replay (filterOldFiles env) pre1 s).d.Args.MaxAgeInHours modTime
        (replay (filterOldFiles env) pre1 s)).1
      = (fileOlderThan env (replay (filterOldFiles env) pre2 s).d.Args.MaxAgeInHours modTime
        (replay (filterOldFiles env) pre2 s)).1 := by
    rw [fileOlderThan_fst, fileOlderThan_fst, replay_Args, replay_Args, hclock]
  have hcalls : ∀ (p : String) (t : State),
      ((filterOldFiles env p (.ok ⟨false, modTime⟩) t).2.w.removeCalls = t.w.removeCalls ++ [p]
        ↔ (fileOlderThan env t.d.Args.MaxAgeInHours modTime t).1 = true) := by
    intro p t
    rw [filterOldFiles_file]
    by_cases ho : (fileOlderThan env t.d.Args.MaxAgeInHours modTime t).1 = true
    · simp only [ho, if_true, iff_true]
      exact deleteFile_removeCalls _ _ _
    · simp [ho, Results.skip]
  refine ⟨?_, hdec, ?_⟩
  · rw [filterOldFiles_file]
    split
    · unfold deleteFile
      cases env.remover _ p1 <;> rfl
    · rfl
  · rw [hcalls, hcalls, hdec]

/-- C14, witness: with the clock that stands at hour 100 the twins of hour 95 are
both skipped. -/
theorem same_reading_same_decision_witness :
    envSucceeding.clock (replay (filterOldFiles envSucceeding)
        [("/tmp", .ok ⟨true, 0⟩)] (freshState 5)).w.clockReads
      = envSucceeding.clock (replay (filterOldFiles envSucceeding)
        [("/tmp", .ok ⟨true, 0⟩), ("/tmp/a", .ok ⟨false, 95 * Hour⟩)] (freshState 5)).w.clockReads
    ∧ (fileOlderThan envSucceeding 5 (95 * Hour) (freshState 5)).1
      = (fileOlderThan envSucceeding 5 (95 * Hour)
          (replay (filterOldFiles envSucceeding)
            [("/tmp", .ok ⟨true, 0⟩), ("/tmp/a", .ok ⟨false, 95 * Hour⟩)] (freshState 5))).1 :=
  ⟨by decide,
    (same_reading_same_decision envSucceeding (freshState 5) [("/tmp", .ok ⟨true, 0⟩)]
      [("/tmp", .ok ⟨true, 0⟩), ("/tmp/a", .ok ⟨false, 95 * Hour⟩)] "/tmp/a" "/tmp/b" (95 * Hour)
      (by decide)).2.1⟩

/-! ## Accounting -/

/-- What one call of the callback does to the counters: a file raises exactly one
of them by one, any other entry leaves them. -/
theorem filterOldFiles_counts (env : Env) (p : String) (v : Visit) (s : State) :
    (isFile (p, v) = true ∧
        ((filterOldFiles env p v s).2.d.Results
            = ⟨s.d.Results.passed + 1, s.d.Results.failed, s.d.Results.skipped⟩
          ∨ (filterOldFiles env p v s).2.d.Results
            = ⟨s.d.Results.passed, s.d.Results.failed + 1, s.d.Results.skipped⟩
          ∨ (filterOldFiles env p v s).2.d.Results
            = ⟨s.d.Results.passed, s.d.Results.failed, s.d.Results.skipped + 1⟩))
      ∨ (isFile (p, v) = false ∧ (filterOldFiles env p v s).2.d.Results = s.d.Results) := by
  cases v with
  | failed info err => exact Or.inr ⟨rfl, rfl⟩
  | ok info =>
    obtain ⟨isDir, modTime⟩ := info
    cases isDir with
    | true => exact Or.inr ⟨rfl, rfl⟩
    | false =>
      refine Or.inl ⟨rfl, ?_⟩
      rw [filterOldFiles_file]
      by_cases ho : (fileOlderThan env s.d.Args.MaxAgeInHours modTime s).1 = true
      · simp only [ho, if_true]
        unfold deleteFile
        cases env.remover _ p with
        | none => exact Or.inl rfl
        | some e => exact Or.inr (Or.inl rfl)
      · simp only [ho, Bool.false_eq_true, if_false]
        exact Or.inr (Or.inr rfl)

theorem replay_total (env : Env) :
    ∀ (tr : List (String × Visit)) (s : State),
      (replay (filterOldFiles env) tr s).d.Results.passed
          + (replay (filterOldFiles env) tr s).d.Results.failed
          + (replay (filterOldFiles env) tr s).d.Results.skipped
        = s.d.Results.passed + s.d.Results.failed + s.d.Results.skipped
          + ((tr.filter isFile).length : Int)
  | [], s => by simp [replay]
  | (p, v) :: rest, s => by
    simp only [replay]
    rw [replay_total env rest]
    rcases filterOldFiles_counts env p v s with ⟨hf, h | h | h⟩ | ⟨hf, h⟩
    all_goals
      rw [h]
      simp only [List.filter_cons, hf, if_true, List.length_cons, Bool.false_eq_true, if_false]
      try push_cast
      try ring

/-- C15: every walked file is accounted for exactly once.  Whether or not the
run ends in an error, after `Execute` the sum passed + failed + skipped is the
sum before the run plus the number of entries `filterOldFiles` was handed that
carry no traversal error and are not directories, so on a fresh deleter it is
that number; each such entry raises exactly one of the three counters by one,
and every other entry leaves the counters as they are. -/
theorem Execute_accounts_for_every_file (env : Env) (tree : Node) (s : State) :
    ((Execute env tree s).1.1.passed + (Execute env tree s).1.1.failed
          + (Execute env tree s).1.1.skipped
        = s.d.Results.passed + s.d.Results.failed + s.d.Results.skipped
          + (((walked env tree s).filter isFile).length : Int))
      ∧ (∀ (p : String) (modTime : Int) (t : State),
          (filterOldFiles env p (.ok ⟨false, modTime⟩) t).2.d.Results
              = ⟨t.d.Results.passed + 1, t.d.Results.failed, t.d.Results.skipped⟩
            ∨ (filterOldFiles env p (.ok ⟨false, modTime⟩) t).2.d.Results
              = ⟨t.d.Results.passed, t.d.Results.failed + 1, t.d.Results.skipped⟩
            ∨ (filterOldFiles env p (.ok ⟨false, modTime⟩) t).2.d.Results
              = ⟨t.d.Results.passed, t.d.Results.failed, t.d.Results.skipped + 1⟩)
      ∧ (∀ (p : String) (v : Visit) (t : State), isFile (p, v) = false →
          (filterOldFiles env p v t).2.d.Results = t.d.Results) := by
  obtain ⟨_, hrun, hres⟩ := Execute_walked env tree s
  refine ⟨?_, ?_, ?_⟩
  · rw [hres, Run_replay _ _ _ _ _ hrun]
    exact replay_total env _ s
  · intro p modTime t
    rcases filterOldFiles_counts env p (.ok ⟨false, modTime⟩) t with ⟨_, h⟩ | ⟨hf, _⟩
    · exact h
    · simp [isFile] at hf
  · intro p v t hf
    rcases filterOldFiles_counts env p v t with ⟨hf', _⟩ | ⟨_, h⟩
    · rw [hf] at hf'; cases hf'
    · exact h

/-! ## The threshold past the wrap-around -/

/-- C17, the code at a failing input: with the clock reading equal to the
modification time, `fileOlderThan` answers true for 2562048 hours and false for
5 hours, although 0 ≤ 5 ≤ 2562048: raising the threshold from 5 to 2562048 makes
the file eligible. -/
theorem fileOlderThan_not_monotone_at_2562048 :
    (0 : Int) ≤ 5 ∧ (5 : Int) ≤ 2562048
      ∧ (fileOlderThan envSucceeding 2562048 (100 * Hour) (freshState 5)).1 = true
      ∧ (fileOlderThan envSucceeding 5 (100 * Hour) (freshState 5)).1 = false := by
  refine ⟨by decide, by decide, by decide, by decide⟩

/-- Below the wrap-around raising the threshold makes no file eligible: for
`0 ≤ h1 ≤ h2 ≤ 2562047` and one clock reading, a file that `fileOlderThan`
selects under `h2` it selects under `h1`. -/
theorem fileOlderThan_monotone (env : Env) (h1 h2 fileTime : Int) (s : State)
    (h0 : 0 ≤ h1) (h12 : h1 ≤ h2) (hmax : h2 ≤ 2562047)
    (hsel : (fileOlderThan env h2 fileTime s).1 = true) :
    (fileOlderThan env h1 fileTime s).1 = true := by
  rw [fileOlderThan_exact env _ _ s (by omega) hmax] at hsel
  rw [fileOlderThan_exact env _ _ s h0 (by omega)]
  simp only [Hour] at *
  omega

/-! ## Whole runs -/

mutual
/-- A callback that answers nil on every entry without error is called on the
whole pre-order of a tree without traversal error. -/
theorem walk_all {σ : Type} (fn : WalkFunc σ)
    (hfn : ∀ p info s, (fn p (.ok info) s).1 = none) (path : String) :
    ∀ (node : Node) (s : σ), noTraversalError node = true →
      walk fn path node s = (none, replay fn (preorder path node) s)
  | .noent err, s, h => by simp [noTraversalError] at h
  | .file modTime, s, _ => by
    simp only [walk, preorder, replay]
    exact Prod.ext (hfn _ _ _) rfl
  | .dir modTime (some err) entries, s, h => by simp [noTraversalError] at h
  | .dir modTime none entries, s, h => by
    have h1 := hfn path ⟨true, modTime⟩ s
    rcases hf : fn path (.ok ⟨true, modTime⟩) s with ⟨_ | e1, s1⟩
    · simp only [walk, hf, preorder, replay]
      exact walkEntries_all fn hfn path entries s1 (by simpa [noTraversalError] using h)
    · rw [hf] at h1; simp at h1
/-- The same for the loop over the entries of a directory. -/
theorem walkEntries_all {σ : Type} (fn : WalkFunc σ)
    (hfn : ∀ p info s, (fn p (.ok info) s).1 = none) (path : String) :
    ∀ (entries : Entries) (s : σ), noTraversalErrorEntries entries = true →
      walkEntries fn path entries s = (none, replay fn (preorderEntries path entries) s)
  | .nil, s, _ => by simp [walkEntries, preorderEntries, replay]
  | .cons name node rest, s, h => by
    simp only [noTraversalErrorEntries, Bool.and_eq_true] at h
    rw [walkEntries_cons, walk_all fn hfn (Join path name) node s h.1]
    simp only [stops, Bool.false_eq_true, if_false, preorderEntries, replay_append]
    exact walkEntries_all fn hfn path rest _ h.2
end

/-- With a remover that always succeeds the callback answers nil on every entry
without error. -/
theorem filterOldFiles_ok_nil (env : Env) (hrem : ∀ hist p, env.remover hist p = none)
    (p : String) (info : FileInfo) (s : State) :
    (filterOldFiles env p (.ok info) s).1 = none := by
  cases hans : (filterOldFiles env p (.ok info) s).1 with
  | none => rfl
  | some e =>
    rcases (filterOldFiles_error_iff env p _ s e).1 hans with ⟨_, _, hv, _⟩ | ⟨_, _, _, hr⟩
    · cases hv
    · rw [hrem] at hr; cases hr

/-- Below the wrap-around, with a clock that stands at `now` and a remover that
always succeeds, the callback called on the entries of a list in turn raises
passed by the number of files older than the threshold, skipped by the number of
the other files, and leaves failed. -/
theorem replay_counts (env : Env) (now h : Int) (hrem : ∀ hist p, env.remover hist p = none)
    (hclock : ∀ n, env.clock n = now) (h0 : 0 ≤ h) (h1 : h ≤ 2562047) :
    ∀ (tr : List (String × Visit)) (s : State), s.d.Args.MaxAgeInHours = h →
      (replay (filterOldFiles env) tr s).d.Results
        = ⟨s.d.Results.passed + ((tr.filter (isOldFile now h)).length : Int),
            s.d.Results.failed,
            s.d.Results.skipped
              + ((tr.filter (fun x => isFile x && !isOldFile now h x)).length : Int)⟩
  | [], s, _ => by simp [replay]
  | (p, v) :: rest, s, hs => by
    simp only [replay]
    rw [replay_counts env now h hrem hclock h0 h1 rest _ (by rw [filterOldFiles_Args, hs])]
    cases v with
    | failed info err => simp [filterOldFiles_failed, isFile, isOldFile]
    | ok info =>
      obtain ⟨isDir, modTime⟩ := info
      cases isDir with
      | true => simp [filterOldFiles, isFile, isOldFile]
      | false =>
        rw [filterOldFiles_file]
        have hx := fileOlderThan_exact env h modTime s h0 h1
        rw [hclock] at hx
        rw [hs]
        by_cases ho : (fileOlderThan env h modTime s).1 = true
        · have hgt := hx.1 ho
          simp only [ho, if_true]
          simp [deleteFile, hrem, Results.Pass, isFile, isOldFile, hgt]
          ring
        · have hgt : ¬ now - modTime > h * Hour := fun hc => ho (hx.2 hc)
          simp only [ho, Bool.false_eq_true, if_false]
          simp [Results.skip, isFile, isOldFile, hgt]
          ring

/-- Below the wrap-around, for `0 ≤ MaxAgeInHours ≤ 2562047`: on a tree walked
without traversal error, with a remover that always succeeds and a clock that
stands at `now`, `Execute` returns a nil error, raises passed by the number of
files of the tree older than the threshold and skipped by the number of the
other files, and leaves failed. -/
theorem Execute_counts (env : Env) (tree : Node) (s : State) (now : Int)
    (hno : noTraversalError tree = true) (hrem : ∀ hist p, env.remover hist p = none)
    (hclock : ∀ n, env.clock n = now)
    (h0 : 0 ≤ s.d.Args.MaxAgeInHours) (h1 : s.d.Args.MaxAgeInHours ≤ 2562047) :
    (Execute env tree s).1
      = (⟨s.d.Results.passed
            + (((preorder s.d.Args.Directory tree).filter
                (isOldFile now s.d.Args.MaxAgeInHours)).length : Int),
          s.d.Results.failed,
          s.d.Results.skipped
            + (((preorder s.d.Args.Directory tree).filter
                (fun x => isFile x && !isOldFile now s.d.Args.MaxAgeInHours x)).length : Int)⟩,
        none) := by
  have hw := walk_all (filterOldFiles env) (filterOldFiles_ok_nil env hrem)
    s.d.Args.Directory tree s hno
  rw [Execute_eq, Walk_eq, hw]
  simp only [quiet, if_true]
  rw [replay_counts env now _ hrem hclock h0 h1 _ s rfl]

/-- C11, the code at a failing input: the deleter `New` returns for 2562048
hours, run with a clock that stands at hour 100 and a remover that always
succeeds on a directory with the files `a`, ten hours old, and `b`, one hour
old, returns passed = 2 and skipped = 0, although no file of the tree is older
than 2562048 hours and two are not.  Under five hours the same run returns
passed = 1, skipped = 1, failed = 0 and a nil error. -/
theorem Execute_counts_young_files_as_passed_at_2562048 :
    New ⟨"/tmp", 2562048⟩ = (some (freshState 2562048).d, none)
      ∧ noTraversalError treeOldYoung = true
      ∧ ((preorder "/tmp" treeOldYoung).filter (isOldFile (100 * Hour) 2562048)).length = 0
      ∧ ((preorder "/tmp" treeOldYoung).filter
          (fun x => isFile x && !isOldFile (100 * Hour) 2562048 x)).length = 2
      ∧ (Execute envSucceeding treeOldYoung (freshState 2562048)).1 = (⟨2, 0, 0⟩, none)
      ∧ (Execute envSucceeding treeOldYoung (freshState 5)).1 = (⟨1, 0, 1⟩, none) := by
  refine ⟨by decide, by decide, by decide, by decide, by decide, by decide⟩

/-! ## What is handed to the remover -/

/-- One call of the callback hands to the remover the path of a file that
`fileOlderThan` selects, and nothing else. -/
theorem filterOldFiles_removeCalls (env : Env) (p : String) (v : Visit) (s : State) :
    (filterOldFiles env p v s).2.w.removeCalls
      = s.w.removeCalls ++ selected env [(p, v)] s := by
  cases v with
  | failed info err => simp [filterOldFiles_failed, selected]
  | ok info =>
    obtain ⟨isDir, modTime⟩ := info
    cases isDir with
    | true => simp [filterOldFiles, selected]
    | false =>
      rw [filterOldFiles_file]
      by_cases ho : (fileOlderThan env s.d.Args.MaxAgeInHours modTime s).1 = true
      · simp only [ho, if_true]
        rw [deleteFile_removeCalls]
        simp [selected, ho]
      · simp [selected, ho, Results.skip]

theorem selected_cons (env : Env) (p : String) (v : Visit) (rest : List (String × Visit))
    (s : State) :
    selected env ((p, v) :: rest) s
      = selected env [(p, v)] s ++ selected env rest (filterOldFiles env p v s).2 := by
  simp [selected]

theorem replay_removeCalls (env : Env) :
    ∀ (tr : List (String × Visit)) (s : State),
      (replay (filterOldFiles env) tr s).w.removeCalls = s.w.removeCalls ++ selected env tr s
  | [], s => by simp [replay, selected]
  | (p, v) :: rest, s => by
    simp only [replay]
    rw [replay_removeCalls env rest, filterOldFiles_removeCalls, List.append_assoc,
      ← selected_cons]

/-- The remover is called at most once for a walked entry: the paths handed to
it are a sublist of the paths of the entries, in their order. -/
theorem selected_sublist (env : Env) :
    ∀ (tr : List (String × Visit)) (s : State),
      (selected env tr s).Sublist (tr.map Prod.fst)
  | [], _ => by simp [selected]
  | (p, v) :: rest, s => by
    rw [selected_cons, List.map_cons]
    have ih := selected_sublist env rest (filterOldFiles env p v s).2
    have h1 : (selected env [(p, v)] s).Sublist [p] := by
      cases v with
      | failed info err => simp [selected]
      | ok info =>
        by_cases hc : (!info.IsDir
            && (fileOlderThan env s.d.Args.MaxAgeInHours info.ModTime s).1) = true
        · simp [selected, hc]
        · simp [selected, hc]
    simpa using h1.append ih

/-- A path handed to the remover is the path of an entry that is a file and that
`fileOlderThan` selected in the state it was met in. -/
theorem selected_mem (env : Env) (q : String) :
    ∀ (tr : List (String × Visit)) (s : State), q ∈ selected env tr s →
      ∃ pre modTime post, tr = pre ++ (q, Visit.ok ⟨false, modTime⟩) :: post
        ∧ (fileOlderThan env (replay (filterOldFiles env) pre s).d.Args.MaxAgeInHours modTime
            (replay (filterOldFiles env) pre s)).1 = true
  | [], _, h => by simp [selected] at h
  | (p, v) :: rest, s, h => by
    rw [selected_cons, List.mem_append] at h
    rcases h with h | h
    · cases v with
      | failed info err => simp [selected] at h
      | ok info =>
        obtain ⟨isDir, modTime⟩ := info
        cases isDir with
        | true => simp [selected] at h
        | false =>
          by_cases ho : (fileOlderThan env s.d.Args.MaxAgeInHours modTime s).1 = true
          · simp [selected, ho] at h
            subst h
            exact ⟨[], modTime, rest, rfl, by simpa [replay] using ho⟩
          · simp [selected, ho] at h
    · obtain ⟨pre, modTime, post, h1, h2⟩ := selected_mem env q rest _ h
      exact ⟨(p, v) :: pre, modTime, post, by simp [h1], by simpa [replay] using h2⟩

/-- Below the wrap-around, for `0 ≤ MaxAgeInHours ≤ 2562047`, `Execute` removes
nothing it should keep: the paths it hands to the remover are, in order and at
most once for an entry, paths of walked entries, and each of them is the path
of a walked entry that carries no error, is not a directory, and whose exact
age at the clock reading of its evaluation was greater than `MaxAgeInHours`
hours. -/
theorem Execute_removes_only_old (env : Env) (tree : Node) (s : State)
    (h0 : 0 ≤ s.d.Args.MaxAgeInHours) (h1 : s.d.Args.MaxAgeInHours ≤ 2562047) :
    (Execute env tree s).2.w.removeCalls
        = s.w.removeCalls ++ selected env (walked env tree s) s
      ∧ (selected env (walked env tree s) s).Sublist ((walked env tree s).map Prod.fst)
      ∧ ∀ q ∈ selected env (walked env tree s) s,
          ∃ pre modTime post,
            walked env tree s = pre ++ (q, Visit.ok ⟨false, modTime⟩) :: post
              ∧ env.clock (replay (filterOldFiles env) pre s).w.clockReads - modTime
                  > s.d.Args.MaxAgeInHours * Hour := by
  obtain ⟨_, hrun, _⟩ := Execute_walked env tree s
  refine ⟨?_, selected_sublist env _ s, ?_⟩
  · rw [Run_replay _ _ _ _ _ hrun, replay_removeCalls]
  · intro q hq
    obtain ⟨pre, modTime, post, hw, hsel⟩ := selected_mem env q _ s hq
    refine ⟨pre, modTime, post, hw, ?_⟩
    rw [replay_Args] at hsel
    exact (fileOlderThan_exact env _ _ _ h0 h1).1 hsel

/-- C16, the code at a failing input: the deleter `New` returns for 2562048
hours, run with a clock that stands at hour 100 on a directory whose one file
`a` was modified at hour 90, hands `/tmp/a` to the remover, although its exact
age at the evaluation, ten hours, is not greater than 2562048 hours. -/
theorem Execute_removes_young_file_at_2562048 :
    New ⟨"/tmp", 2562048⟩ = (some (freshState 2562048).d, none)
      ∧ walked envSucceeding treeOneOld (freshState 2562048)
        = [("/tmp", .ok ⟨true, 0⟩), ("/tmp/a", .ok ⟨false, 90 * Hour⟩)]
      ∧ (Execute envSucceeding treeOneOld (freshState 2562048)).2.w.removeCalls = ["/tmp/a"]
      ∧ envSucceeding.clock 0 - 90 * Hour = 10 * Hour
      ∧ ¬ (envSucceeding.clock 0 - 90 * Hour > 2562048 * Hour) := by
  refine ⟨by decide, by decide, by decide, by decide, by decide⟩

end deletion
